import Mathlib

/-!
Verification of the libhmk input-processing core against its specification.

The definitions below are shallow embeddings of the C sources:
`src/matrix.c`, `src/layout.c`, `src/advanced_keys.c` and the headers
`include/common.h`, `include/advanced_keys.h`.

Modelling conventions:
* machine integers (`uint8_t`, `uint16_t`, `uint32_t`) are `Nat`; the only
  subtraction of timestamps the C code performs is the unsigned 32-bit
  difference, modelled by `timer_elapsed` below (explicitly modulo `2 ^ 32`);
  all other subtractions in the sources are guarded so that truncated `Nat`
  subtraction coincides with the C result;
* fixed-size C arrays (`advanced_keys[NUM_ADVANCED_KEYS]`, the combo ring
  buffer, the per-key matrix) are lists; the combo ring buffer
  (`event_queue`/`queue_head`/`queue_tail`/`queue_count`) is modelled by the
  list of its live events in queue order;
* C enums that are stored in `uint8_t` fields and dispatched with a `default`
  case (`ak_type_t`, the stage fields, `ak_event_type_t`) stay `Nat`, so that
  out-of-range values behave exactly as in C;
* calls into external collaborators (`layout_register`, `layout_unregister`,
  `deferred_action_push`, `matrix_disable_rapid_trigger`, `hid_*`) are
  recorded as actions in an output trace; the boolean result of
  `deferred_action_push` (whose implementation is not part of the core
  sources) is a parameter `push_ok`;
* `adc_to_distance` and the ADC filtering are external collaborators; the
  actuation logic of `matrix_scan` is therefore embedded as a function of the
  travel distance it computes.
-/

namespace LibHmk

/-- Keycode constant from `keycodes.h` (not among the core sources).
Modelled from the spec: `KC_NO` is the "no keycode" special constant; only
its identity matters to the embedded code. -/
def KC_NO : Nat := 0

/-- Keycode constant from `keycodes.h` (not among the core sources).
Modelled from the spec: `KC_TRANSPARENT` means "inherit from the next-lower
active layer". -/
def KC_TRANSPARENT : Nat := 1

/-- Modelled from the spec: `timer_elapsed(since)` is the monotonic
millisecond difference `now - since` "interpreted modulo 2^32" (spec §9,
Timer arithmetic); the implementation lives outside the core sources. -/
def timer_elapsed (now since : Nat) : Nat :=
  (now + 2 ^ 32 - since % 2 ^ 32) % 2 ^ 32

theorem timer_elapsed_eq_sub (now since : Nat) (h1 : since ≤ now)
    (h2 : now - since < 2 ^ 32) (h3 : since < 2 ^ 32) :
    timer_elapsed now since = now - since := by
  unfold timer_elapsed
  rw [Nat.mod_eq_of_lt h3]
  have : now + 2 ^ 32 - since = (now - since) + 2 ^ 32 := by omega
  rw [this, Nat.add_mod_right, Nat.mod_eq_of_lt h2]

--------------------------------------------------------------------
-- Key matrix (`src/matrix.c`)
--------------------------------------------------------------------

/-- Embeds `actuation_t` from `include/common.h`. -/
structure actuation_t where
  actuation_point : Nat := 0
  rt_down : Nat := 0
  rt_up : Nat := 0
  continuous : Bool := false
deriving DecidableEq, Repr

/-- Key direction (`key_dir` values used by `src/matrix.c`). -/
inductive key_dir_t where
  | KEY_DIR_INACTIVE
  | KEY_DIR_DOWN
  | KEY_DIR_UP
deriving DecidableEq, Repr

/-- The fields of `key_state_t` that the actuation logic of `matrix_scan`
reads and writes (the ADC calibration fields are handled by the external
collaborators and do not appear in the claims). -/
structure key_state_t where
  distance : Nat := 0
  extremum : Nat := 0
  key_dir : key_dir_t := .KEY_DIR_INACTIVE
  is_pressed : Bool := false
deriving DecidableEq, Repr

/-- The per-key actuation step of `matrix_scan` (`src/matrix.c` lines
148-206), as a function of the freshly computed travel `distance` (the
distance itself comes from the external `adc_to_distance`).
`rt_disabled` is `bitmap_get(rapid_trigger_disabled, i)`. -/
def matrix_actuation_step (rt_disabled : Bool) (act : actuation_t)
    (st0 : key_state_t) (d : Nat) : key_state_t :=
  let st := { st0 with distance := d }
  if rt_disabled || act.rt_down == 0 then
    { st with key_dir := .KEY_DIR_INACTIVE,
              is_pressed := decide (act.actuation_point ≤ d) }
  else
    let reset_point := if act.continuous then 0 else act.actuation_point
    let rt_up := if act.rt_up == 0 then act.rt_down else act.rt_up
    match st.key_dir with
    | .KEY_DIR_INACTIVE =>
      if act.actuation_point < d then
        { st with extremum := d, key_dir := .KEY_DIR_DOWN, is_pressed := true }
      else st
    | .KEY_DIR_DOWN =>
      if d ≤ reset_point then
        { st with extremum := d, key_dir := .KEY_DIR_INACTIVE, is_pressed := false }
      else if d + rt_up < st.extremum then
        { st with extremum := d, key_dir := .KEY_DIR_UP, is_pressed := false }
      else if st.extremum < d then
        { st with extremum := d }
      else st
    | .KEY_DIR_UP =>
      if d ≤ reset_point then
        { st with extremum := d, key_dir := .KEY_DIR_INACTIVE, is_pressed := false }
      else if st.extremum + act.rt_down < d then
        { st with extremum := d, key_dir := .KEY_DIR_DOWN, is_pressed := true }
      else if d < st.extremum then
        { st with extremum := d }
      else st

/-- The Rapid-Trigger FSM exactly as the table of spec §4.1 states it,
row by row. Written from the spec's words, to be compared with
`matrix_actuation_step` (which is translated from the source). -/
def rt_spec_step (rt_disabled : Bool) (act : actuation_t)
    (st0 : key_state_t) (d : Nat) : key_state_t :=
  let st := { st0 with distance := d }
  -- "If `rt_down == 0`, use simple threshold actuation with no hysteresis."
  if rt_disabled || act.rt_down == 0 then
    { st with key_dir := .KEY_DIR_INACTIVE,
              is_pressed := decide (act.actuation_point ≤ d) }
  else
    -- "`reset_point = 0 if continuous else actuation_point`"
    let reset_point := if act.continuous then 0 else act.actuation_point
    -- "`rt_up` (release sensitivity; 0 mirrors `rt_down`)"
    let rt_up := if act.rt_up == 0 then act.rt_down else act.rt_up
    match st.key_dir with
    | .KEY_DIR_INACTIVE =>
      -- "Inactive: `distance > actuation_point` -> Down, `extremum := distance`,
      --  `is_pressed := true`"
      if act.actuation_point < d then
        { st with extremum := d, key_dir := .KEY_DIR_DOWN, is_pressed := true }
      else st
    | .KEY_DIR_DOWN =>
      -- "Down: `distance <= reset_point` -> Inactive, release;
      --  else `distance + rt_up < extremum` -> Up, release;
      --  else `distance > extremum` -> update extremum"
      if d ≤ reset_point then
        { st with extremum := d, key_dir := .KEY_DIR_INACTIVE, is_pressed := false }
      else if d + rt_up < st.extremum then
        { st with extremum := d, key_dir := .KEY_DIR_UP, is_pressed := false }
      else if st.extremum < d then
        { st with extremum := d }
      else st
    | .KEY_DIR_UP =>
      -- "Up: `distance <= reset_point` -> Inactive, release;
      --  else `extremum + rt_down < distance` -> Down, press;
      --  else `distance < extremum` -> update extremum"
      if d ≤ reset_point then
        { st with extremum := d, key_dir := .KEY_DIR_INACTIVE, is_pressed := false }
      else if st.extremum + act.rt_down < d then
        { st with extremum := d, key_dir := .KEY_DIR_DOWN, is_pressed := true }
      else if d < st.extremum then
        { st with extremum := d }
      else st

/-- C6: the per-key actuation step of `matrix_scan` follows the Rapid-Trigger
FSM of the spec exactly: for every key state, actuation configuration and
travel distance, the transition taken by the source code coincides with the
spec's table (including `reset_point = 0` when continuous, `rt_up = 0`
mirroring `rt_down`, and plain threshold actuation when Rapid Trigger is
disabled or `rt_down = 0`). -/
theorem matrix_actuation_step_follows_rt_fsm (rt_disabled : Bool)
    (act : actuation_t) (st : key_state_t) (d : Nat) :
    matrix_actuation_step rt_disabled act st d = rt_spec_step rt_disabled act st d := by
  rfl

--------------------------------------------------------------------
-- Simultaneous-press ordering of `matrix_scan` (`src/matrix.c` 208-300)
--------------------------------------------------------------------

/-- An entry of the `pressed_keys` buffer of `matrix_scan`. -/
structure pressed_entry where
  key : Nat
  distance_delta : Nat
deriving DecidableEq, Repr

/-- One iteration of the outer loop of the sort in `matrix_scan`
(`src/matrix.c` 232-243): the inner loop
`for j > i, if (a[j].delta > a[i].delta) swap(a[i], a[j])`.
`best` is the current content of slot `i`; the returned pair is the final
content of slot `i` together with the (possibly permuted) slots after it. -/
def select_pass (best : pressed_entry) :
    List pressed_entry → pressed_entry × List pressed_entry
  | [] => (best, [])
  | x :: xs =>
    if best.distance_delta < x.distance_delta then
      let p := select_pass x xs
      (p.1, best :: p.2)
    else
      let p := select_pass best xs
      (p.1, x :: p.2)

/-- The full exchange sort of `matrix_scan`; the fuel argument is the
remaining number of outer-loop iterations. -/
def exch_sort_fuel : Nat → List pressed_entry → List pressed_entry
  | 0, l => l
  | _ + 1, [] => []
  | fuel + 1, x :: xs =>
    let p := select_pass x xs
    p.1 :: exch_sort_fuel fuel p.2

/-- The sort of the `pressed_keys` buffer in `matrix_scan` (`src/matrix.c`
232-243); the outer loop runs `pressed_keys_count` times. -/
def exch_sort (l : List pressed_entry) : List pressed_entry :=
  exch_sort_fuel l.length l

theorem select_pass_length (best : pressed_entry) (l : List pressed_entry) :
    (select_pass best l).2.length = l.length := by
  induction l generalizing best with
  | nil => rfl
  | cons x xs ih =>
    simp only [select_pass]
    split
    · simpa using ih x
    · simpa using ih best

theorem select_pass_fst_lt (best x : pressed_entry) (xs : List pressed_entry)
    (h : best.distance_delta < x.distance_delta) :
    select_pass best (x :: xs) =
      ((select_pass x xs).1, best :: (select_pass x xs).2) := by
  simp [select_pass, h]

theorem select_pass_fst_ge (best x : pressed_entry) (xs : List pressed_entry)
    (h : ¬ best.distance_delta < x.distance_delta) :
    select_pass best (x :: xs) =
      ((select_pass best xs).1, x :: (select_pass best xs).2) := by
  simp [select_pass, h]

theorem select_pass_perm (best : pressed_entry) (l : List pressed_entry) :
    ((select_pass best l).1 :: (select_pass best l).2).Perm (best :: l) := by
  induction l generalizing best with
  | nil => rfl
  | cons x xs ih =>
    by_cases h : best.distance_delta < x.distance_delta
    · rw [select_pass_fst_lt best x xs h]
      exact (List.Perm.swap best _ _).trans (List.Perm.cons best (ih x))
    · rw [select_pass_fst_ge best x xs h]
      exact ((List.Perm.swap x _ _).trans (List.Perm.cons x (ih best))).trans
        (List.Perm.swap best x xs)

theorem select_pass_max (best : pressed_entry) (l : List pressed_entry) :
    ∀ y ∈ best :: l, y.distance_delta ≤ (select_pass best l).1.distance_delta := by
  induction l generalizing best with
  | nil =>
    intro y hy
    rcases List.mem_cons.mp hy with rfl | hmem
    · exact Nat.le_refl _
    · cases hmem
  | cons x xs ih =>
    intro y hy
    by_cases h : best.distance_delta < x.distance_delta
    · rw [select_pass_fst_lt best x xs h]
      rcases List.mem_cons.mp hy with rfl | hy'
      · exact Nat.le_of_lt (Nat.lt_of_lt_of_le h (ih x x (List.mem_cons_self x xs)))
      · exact ih x y hy'
    · rw [select_pass_fst_ge best x xs h]
      rcases List.mem_cons.mp hy with rfl | hy'
      · exact ih y y (List.mem_cons_self y xs)
      · rcases List.mem_cons.mp hy' with rfl | hy''
        · exact Nat.le_trans (Nat.le_of_not_lt h) (ih best best (List.mem_cons_self best xs))
        · exact ih best y (List.mem_cons_of_mem best hy'')

/-- The element placed at the front by one pass is the *first* entry of the
current segment that attains the maximal `distance_delta`: everything before
it in the segment is strictly smaller. -/
theorem select_pass_split (best : pressed_entry) (l : List pressed_entry) :
    ∃ l₁ l₂, best :: l = l₁ ++ (select_pass best l).1 :: l₂ ∧
      ∀ y ∈ l₁, y.distance_delta < (select_pass best l).1.distance_delta := by
  induction l generalizing best with
  | nil => exact ⟨[], [], rfl, by simp⟩
  | cons x xs ih =>
    by_cases h : best.distance_delta < x.distance_delta
    · rw [select_pass_fst_lt best x xs h]
      obtain ⟨l₁, l₂, heq, hsm⟩ := ih x
      refine ⟨best :: l₁, l₂, ?_, ?_⟩
      · rw [List.cons_append, ← heq]
      · intro y hy
        rcases List.mem_cons.mp hy with rfl | hy'
        · exact Nat.lt_of_lt_of_le h (select_pass_max x xs x (List.mem_cons_self x xs))
        · exact hsm y hy'
    · rw [select_pass_fst_ge best x xs h]
      obtain ⟨l₁, l₂, heq, hsm⟩ := ih best
      cases l₁ with
      | nil =>
        rw [List.nil_append] at heq
        injection heq with hb hl
        refine ⟨[], x :: xs, ?_, by simp⟩
        rw [List.nil_append, ← hb]
      | cons a l₁ =>
        rw [List.cons_append] at heq
        injection heq with hb hl
        subst hb
        refine ⟨best :: x :: l₁, l₂, ?_, ?_⟩
        · rw [List.cons_append, List.cons_append, ← hl]
        · intro y hy
          rcases List.mem_cons.mp hy with rfl | hy'
          · exact hsm y (List.mem_cons_self y l₁)
          · rcases List.mem_cons.mp hy' with rfl | hy''
            · exact Nat.lt_of_le_of_lt (Nat.le_of_not_lt h)
                (hsm best (List.mem_cons_self best l₁))
            · exact hsm y (List.mem_cons_of_mem best hy'')

theorem exch_sort_fuel_perm (fuel : Nat) (l : List pressed_entry)
    (h : l.length ≤ fuel) : (exch_sort_fuel fuel l).Perm l := by
  induction fuel generalizing l with
  | zero => exact List.Perm.refl l
  | succ fuel ih =>
    cases l with
    | nil => exact List.Perm.refl []
    | cons x xs =>
      simp only [exch_sort_fuel]
      have hlen : (select_pass x xs).2.length ≤ fuel := by
        rw [select_pass_length]
        simpa using h
      exact (List.Perm.cons _ (ih _ hlen)).trans (select_pass_perm x xs)

theorem exch_sort_fuel_sorted (fuel : Nat) (l : List pressed_entry)
    (h : l.length ≤ fuel) :
    (exch_sort_fuel fuel l).Pairwise
      (fun a b => b.distance_delta ≤ a.distance_delta) := by
  induction fuel generalizing l with
  | zero =>
    have : l = [] := List.length_eq_zero.mp (Nat.le_zero.mp h)
    subst this; simp [exch_sort_fuel]
  | succ fuel ih =>
    cases l with
    | nil => simp [exch_sort_fuel]
    | cons x xs =>
      simp only [exch_sort_fuel]
      have hlen : (select_pass x xs).2.length ≤ fuel := by
        rw [select_pass_length]; simpa using h
      refine List.pairwise_cons.mpr ⟨?_, ih _ hlen⟩
      intro y hy
      have hy2 : y ∈ (select_pass x xs).2 := (exch_sort_fuel_perm _ _ hlen).mem_iff.mp hy
      have : y ∈ x :: xs :=
        (select_pass_perm x xs).mem_iff.mp (List.mem_cons_of_mem _ hy2)
      exact select_pass_max x xs y this

theorem exch_sort_perm (l : List pressed_entry) : (exch_sort l).Perm l :=
  exch_sort_fuel_perm l.length l (Nat.le_refl _)

theorem exch_sort_sorted (l : List pressed_entry) :
    (exch_sort l).Pairwise (fun a b => b.distance_delta ≤ a.distance_delta) :=
  exch_sort_fuel_sorted l.length l (Nat.le_refl _)

theorem exch_sort_cons (x : pressed_entry) (xs : List pressed_entry) :
    exch_sort (x :: xs) =
      (select_pass x xs).1 ::
        exch_sort_fuel xs.length (select_pass x xs).2 := by
  simp [exch_sort, exch_sort_fuel]

/-- Per-key input of one `matrix_scan` pass: the Rapid-Trigger-disabled bit,
the actuation configuration, the previous key state and the travel distance
computed for this scan (via the external `adc_to_distance`). -/
structure scan_input where
  rt_disabled : Bool := false
  act : actuation_t := {}
  st : key_state_t := {}
  d : Nat := 0
deriving DecidableEq, Repr

/-- The `distance_delta` stored into the `pressed_keys` buffer
(`src/matrix.c` 208-227): `distance - actuation_point` when the distance is
past the actuation point, `0` otherwise. -/
def pressed_delta (act : actuation_t) (d : Nat) : Nat :=
  if act.actuation_point < d then d - act.actuation_point else 0

/-- The `pressed_keys` buffer built by the scan loop: one entry per key that
transitioned to `is_pressed` in this scan, in ascending key order
(`src/matrix.c` 129-228). `i` is the index of the first key of `l`. -/
def scan_pressed_buffer : Nat → List scan_input → List pressed_entry
  | _, [] => []
  | i, inp :: rest =>
    let st := matrix_actuation_step inp.rt_disabled inp.act inp.st inp.d
    if !inp.st.is_pressed && st.is_pressed then
      ⟨i, pressed_delta inp.act st.distance⟩ :: scan_pressed_buffer (i + 1) rest
    else scan_pressed_buffer (i + 1) rest

/-- The revert loop of `matrix_scan` (`src/matrix.c` 294-300): every key in
`reverted` gets `is_pressed := false` and `key_dir := KEY_DIR_INACTIVE`. -/
def revert_pressed (reverted : List Nat) : Nat → List key_state_t → List key_state_t
  | _, [] => []
  | i, st :: rest =>
    (if reverted.contains i then
       { st with is_pressed := false, key_dir := .KEY_DIR_INACTIVE }
     else st) :: revert_pressed reverted (i + 1) rest

/-- The per-key states after a full `matrix_scan` pass: the actuation step on
every key, then the revert of every newly pressed key except the first of
the sorted `pressed_keys` buffer. -/
def matrix_scan_states (inputs : List scan_input) : List key_state_t :=
  let stepped := inputs.map fun inp =>
    matrix_actuation_step inp.rt_disabled inp.act inp.st inp.d
  let sorted := exch_sort (scan_pressed_buffer 0 inputs)
  revert_pressed (sorted.tail.map (·.key)) 0 stepped

theorem scan_pressed_buffer_key_ge (i : Nat) (l : List scan_input) :
    ∀ x ∈ scan_pressed_buffer i l, i ≤ x.key := by
  induction l generalizing i with
  | nil => intro x hx; cases hx
  | cons inp rest ih =>
    intro x hx
    simp only [scan_pressed_buffer] at hx
    split at hx
    · rcases List.mem_cons.mp hx with rfl | hx'
      · exact Nat.le_refl _
      · exact Nat.le_of_succ_le (ih (i + 1) x hx')
    · exact Nat.le_of_succ_le (ih (i + 1) x hx)

theorem scan_pressed_buffer_keys_lt (i : Nat) (l : List scan_input) :
    (scan_pressed_buffer i l).Pairwise (fun a b => a.key < b.key) := by
  induction l generalizing i with
  | nil => exact List.Pairwise.nil
  | cons inp rest ih =>
    simp only [scan_pressed_buffer]
    split
    · refine List.pairwise_cons.mpr ⟨?_, ih (i + 1)⟩
      intro y hy
      exact Nat.lt_of_succ_le (scan_pressed_buffer_key_ge (i + 1) rest y hy)
    · exact ih (i + 1)

/-- Every buffer entry points at a key whose stepped state is freshly
pressed. -/
theorem scan_pressed_buffer_stepped (i : Nat) (l : List scan_input) :
    ∀ x ∈ scan_pressed_buffer i l,
      ∃ st, (l.map fun inp =>
          matrix_actuation_step inp.rt_disabled inp.act inp.st inp.d).get?
            (x.key - i) = some st ∧ st.is_pressed = true := by
  induction l generalizing i with
  | nil => intro x hx; cases hx
  | cons inp rest ih =>
    intro x hx
    simp only [scan_pressed_buffer] at hx
    split at hx
    · rename_i hcond
      rcases List.mem_cons.mp hx with rfl | hx'
      · refine ⟨matrix_actuation_step inp.rt_disabled inp.act inp.st inp.d,
          by simp, ?_⟩
        simpa using (Bool.and_eq_true _ _).mp hcond |>.2
      · have hge := scan_pressed_buffer_key_ge (i + 1) rest x hx'
        obtain ⟨st, hst, hpr⟩ := ih (i + 1) x hx'
        refine ⟨st, ?_, hpr⟩
        have : x.key - i = (x.key - (i + 1)) + 1 := by omega
        rw [this]
        simpa using hst
    · have hge := scan_pressed_buffer_key_ge (i + 1) rest x hx
      obtain ⟨st, hst, hpr⟩ := ih (i + 1) x hx
      refine ⟨st, ?_, hpr⟩
      have : x.key - i = (x.key - (i + 1)) + 1 := by omega
      rw [this]
      simpa using hst

theorem revert_pressed_get (reverted : List Nat) (i j : Nat)
    (l : List key_state_t) :
    (revert_pressed reverted i l).get? j = (l.get? j).map fun st =>
      if reverted.contains (i + j) then
        { st with is_pressed := false, key_dir := .KEY_DIR_INACTIVE }
      else st := by
  induction l generalizing i j with
  | nil => simp [revert_pressed]
  | cons st rest ih =>
    cases j with
    | zero => simp [revert_pressed]
    | succ j =>
      simp only [revert_pressed, List.get?_cons_succ]
      rw [ih (i + 1) j]
      have : i + 1 + j = i + (j + 1) := by omega
      rw [this]

/-- A concrete scan: three keys in plain threshold mode
(`rt_down = 0`, actuation point 10), all unpressed before the scan, with
travel distances 13, 13 and 15, so that all three newly press in the same
scan with distance deltas 3, 3 and 5. -/
def c3_inputs : List scan_input :=
  [ { act := { actuation_point := 10 }, d := 13 },
    { act := { actuation_point := 10 }, d := 13 },
    { act := { actuation_point := 10 }, d := 15 } ]

/-- C3 (counterexample): the sort used by `matrix_scan` is *not* stable with
respect to `(distance_delta desc, key_index asc)`. With newly pressed keys
0, 1, 2 of deltas 3, 3, 5 the swap-based exchange sort produces
`[(2,5), (1,3), (0,3)]`: the two tied entries end up in *descending* key
order, while the claimed stable order is `[(2,5), (0,3), (1,3)]`. -/
theorem matrix_scan_sort_not_stable :
    scan_pressed_buffer 0 c3_inputs =
      [⟨0, 3⟩, ⟨1, 3⟩, ⟨2, 5⟩] ∧
    exch_sort (scan_pressed_buffer 0 c3_inputs) =
      [⟨2, 5⟩, ⟨1, 3⟩, ⟨0, 3⟩] ∧
    ¬ (exch_sort (scan_pressed_buffer 0 c3_inputs)).Pairwise
        (fun x y => y.distance_delta < x.distance_delta ∨
          (x.distance_delta = y.distance_delta ∧ x.key ≤ y.key)) := by
  refine ⟨by decide, by decide, by decide⟩

/-- C3 (amended): in `matrix_scan`, the buffer of keys that newly
transitioned to `is_pressed` (built in ascending key order) is permuted into
an order sorted by `(distance - actuation_point)` descending; the sort is
*not* stable, but its first element is always the *earliest* buffer entry of
maximal delta - hence, since the buffer ascends in key index, the entry with
maximal delta and lowest key index among ties. Only that first key retains
its press edge; every other newly pressed key is reverted to
`is_pressed = false` and `key_dir = KEY_DIR_INACTIVE`. -/
theorem matrix_scan_press_sort_amended (inputs : List scan_input)
    (b0 : pressed_entry) (rest : List pressed_entry)
    (hB : scan_pressed_buffer 0 inputs = b0 :: rest) :
    ∃ b tail, exch_sort (scan_pressed_buffer 0 inputs) = b :: tail ∧
      (b :: tail).Perm (b0 :: rest) ∧
      (b :: tail).Pairwise (fun x y => y.distance_delta ≤ x.distance_delta) ∧
      (∀ x ∈ b0 :: rest, x.distance_delta ≤ b.distance_delta) ∧
      (∃ l₁ l₂, b0 :: rest = l₁ ++ b :: l₂ ∧
        ∀ x ∈ l₁, x.distance_delta < b.distance_delta) ∧
      (∃ st, (matrix_scan_states inputs).get? b.key = some st ∧
        st.is_pressed = true) ∧
      (∀ x ∈ tail, ∃ st, (matrix_scan_states inputs).get? x.key = some st ∧
        st.is_pressed = false ∧ st.key_dir = .KEY_DIR_INACTIVE) := by
  have hcons : exch_sort (scan_pressed_buffer 0 inputs) =
      (select_pass b0 rest).1 ::
        exch_sort_fuel rest.length (select_pass b0 rest).2 := by
    rw [hB, exch_sort_cons]
  refine ⟨(select_pass b0 rest).1, _, hcons, ?_, ?_, ?_, ?_, ?_, ?_⟩
  · have := exch_sort_perm (scan_pressed_buffer 0 inputs)
    rwa [hcons, hB] at this
  · have := exch_sort_sorted (scan_pressed_buffer 0 inputs)
    rwa [hcons] at this
  · exact select_pass_max b0 rest
  · exact select_pass_split b0 rest
  · -- the first key of the sorted buffer keeps its press edge
    have hmem : (select_pass b0 rest).1 ∈ scan_pressed_buffer 0 inputs := by
      rw [hB]
      exact (select_pass_perm b0 rest).mem_iff.mp (List.mem_cons_self _ _)
    obtain ⟨st, hget, hpr⟩ :=
      scan_pressed_buffer_stepped 0 inputs (select_pass b0 rest).1 hmem
    rw [Nat.sub_zero] at hget
    have hnotin : (select_pass b0 rest).1.key ∉
        (exch_sort_fuel rest.length (select_pass b0 rest).2).map (·.key) := by
      have hnod : ((scan_pressed_buffer 0 inputs).map (·.key)).Nodup :=
        (scan_pressed_buffer_keys_lt 0 inputs).map _
          (fun a b h => Nat.ne_of_lt h)
      have hperm := ((exch_sort_perm (scan_pressed_buffer 0 inputs)).map (·.key))
      have : ((exch_sort (scan_pressed_buffer 0 inputs)).map (·.key)).Nodup :=
        hperm.nodup_iff.mpr hnod
      rw [hcons] at this
      exact (List.nodup_cons.mp this).1
    refine ⟨st, ?_, hpr⟩
    simp only [matrix_scan_states, hcons, List.tail_cons]
    rw [revert_pressed_get, hget]
    simp only [Option.map_some', Nat.zero_add]
    rw [if_neg (fun hc => hnotin (List.elem_iff.mp hc))]
  · -- every other newly pressed key is reverted
    intro x hx
    have hmem : x ∈ scan_pressed_buffer 0 inputs := by
      rw [hB]
      have hx' : x ∈ exch_sort (scan_pressed_buffer 0 inputs) := by
        rw [hcons]; exact List.mem_cons_of_mem _ hx
      have := (exch_sort_perm (scan_pressed_buffer 0 inputs)).mem_iff.mp hx'
      rwa [hB] at this
    obtain ⟨st, hget, _⟩ := scan_pressed_buffer_stepped 0 inputs x hmem
    rw [Nat.sub_zero] at hget
    refine ⟨{ st with is_pressed := false, key_dir := .KEY_DIR_INACTIVE }, ?_, rfl, rfl⟩
    simp only [matrix_scan_states, hcons, List.tail_cons]
    rw [revert_pressed_get, hget]
    simp only [Option.map_some', Nat.zero_add]
    rw [if_pos (List.elem_iff.mpr (List.mem_map_of_mem (·.key) hx))]

/-- Witness for C3's amended theorem at the concrete scan `c3_inputs`. -/
theorem matrix_scan_press_sort_amended_witness :
    ∃ b tail, exch_sort (scan_pressed_buffer 0 c3_inputs) = b :: tail ∧
      (b :: tail).Perm (⟨0, 3⟩ :: [⟨1, 3⟩, ⟨2, 5⟩]) ∧
      (b :: tail).Pairwise (fun x y => y.distance_delta ≤ x.distance_delta) ∧
      (∀ x ∈ (⟨0, 3⟩ : pressed_entry) :: [⟨1, 3⟩, ⟨2, 5⟩],
        x.distance_delta ≤ b.distance_delta) ∧
      (∃ l₁ l₂, (⟨0, 3⟩ : pressed_entry) :: [⟨1, 3⟩, ⟨2, 5⟩] = l₁ ++ b :: l₂ ∧
        ∀ x ∈ l₁, x.distance_delta < b.distance_delta) ∧
      (∃ st, (matrix_scan_states c3_inputs).get? b.key = some st ∧
        st.is_pressed = true) ∧
      (∀ x ∈ tail, ∃ st, (matrix_scan_states c3_inputs).get? x.key = some st ∧
        st.is_pressed = false ∧ st.key_dir = .KEY_DIR_INACTIVE) :=
  matrix_scan_press_sort_amended c3_inputs ⟨0, 3⟩ [⟨1, 3⟩, ⟨2, 5⟩] (by decide)

--------------------------------------------------------------------
-- Advanced keys: configuration and state (`include/common.h`,
-- `include/advanced_keys.h`)
--------------------------------------------------------------------

/-- Embeds `ak_type_t` values (`include/common.h`). Kept as `Nat` because the C
`type` field is a `uint8_t` dispatched with a `default` case. -/
def AK_TYPE_NONE : Nat := 0

def AK_TYPE_NULL_BIND : Nat := 1

def AK_TYPE_DYNAMIC_KEYSTROKE : Nat := 2

def AK_TYPE_TAP_HOLD : Nat := 3

def AK_TYPE_TOGGLE : Nat := 4

def AK_TYPE_COMBO : Nat := 5

def AK_TYPE_MACRO : Nat := 6

/-- Embeds `ak_event_type_t` values (`include/advanced_keys.h`); the numeric order
matters: Dynamic Keystroke indexes its action bitmap with
`event_type - AK_EVENT_TYPE_PRESS`. -/
def AK_EVENT_TYPE_HOLD : Nat := 0

def AK_EVENT_TYPE_PRESS : Nat := 1

def AK_EVENT_TYPE_BOTTOM_OUT : Nat := 2

def AK_EVENT_TYPE_RELEASE_FROM_BOTTOM_OUT : Nat := 3

def AK_EVENT_TYPE_RELEASE : Nat := 4

/-- Embeds `nb_behavior_t` values (`include/common.h`). -/
def NB_BEHAVIOR_LAST : Nat := 0

def NB_BEHAVIOR_PRIMARY : Nat := 1

def NB_BEHAVIOR_SECONDARY : Nat := 2

def NB_BEHAVIOR_NEUTRAL : Nat := 3

def NB_BEHAVIOR_DISTANCE : Nat := 4

/-- Embeds `dks_action_t` values (`include/common.h`). -/
def DKS_ACTION_HOLD : Nat := 0

def DKS_ACTION_PRESS : Nat := 1

def DKS_ACTION_RELEASE : Nat := 2

def DKS_ACTION_TAP : Nat := 3

/-- Deferred-action types. Modelled from the spec: `deferred_actions.h` is
not among the core sources; the queue entries carry
`type ∈ {PRESS, RELEASE, TAP}` (spec §4.6). Only their identity matters. -/
def DEFERRED_ACTION_TYPE_PRESS : Nat := 0

def DEFERRED_ACTION_TYPE_RELEASE : Nat := 1

def DEFERRED_ACTION_TYPE_TAP : Nat := 2

/-- Tap-Hold stages (`include/advanced_keys.h`). -/
def TAP_HOLD_STAGE_NONE : Nat := 0

def TAP_HOLD_STAGE_TAP : Nat := 1

def TAP_HOLD_STAGE_HOLD : Nat := 2

/-- Toggle stages (`include/advanced_keys.h`). -/
def TOGGLE_STAGE_NONE : Nat := 0

def TOGGLE_STAGE_TOGGLE : Nat := 1

def TOGGLE_STAGE_NORMAL : Nat := 2

/-- Embeds `null_bind_t` (`include/common.h`). -/
structure null_bind_t where
  secondary_key : Nat := 0
  behavior : Nat := 0
  bottom_out_point : Nat := 0
deriving DecidableEq, Repr

/-- Embeds `dynamic_keystroke_t` (`include/common.h`): 4 keycodes and, per keycode,
a byte of four 2-bit actions. -/
structure dynamic_keystroke_t where
  keycodes : List Nat := [0, 0, 0, 0]
  bitmap : List Nat := [0, 0, 0, 0]
  bottom_out_point : Nat := 0
deriving DecidableEq, Repr

/-- The fields of `tap_hold_t` (`include/common.h`) that
`advanced_key_tap_hold` reads. -/
structure tap_hold_t where
  tap_keycode : Nat := 0
  hold_keycode : Nat := 0
  tapping_term : Nat := 0
  retro_tapping : Bool := false
deriving DecidableEq, Repr

/-- Embeds `toggle_t` (`include/common.h`). -/
structure toggle_t where
  keycode : Nat := 0
  tapping_term : Nat := 0
deriving DecidableEq, Repr

/-- Embeds `combo_t` (`include/common.h`): up to 4 trigger keys (255 = unused). -/
structure combo_t where
  keys : List Nat := [255, 255, 255, 255]
  output_keycode : Nat := 0
  term : Nat := 0
deriving DecidableEq, Repr

/-- Embeds `advanced_key_t` (`include/common.h`); the C `union` of the per-type
payloads is flattened into a product (each handler reads only its own
payload). -/
structure advanced_key_t where
  layer : Nat := 0
  key : Nat := 0
  type : Nat := 0
  null_bind : null_bind_t := {}
  dynamic_keystroke : dynamic_keystroke_t := {}
  tap_hold : tap_hold_t := {}
  toggle : toggle_t := {}
  combo : combo_t := {}
  macro_index : Nat := 0
deriving DecidableEq, Repr

/-- Embeds `ak_state_null_bind_t` (`include/advanced_keys.h`). -/
structure ak_state_null_bind_t where
  is_pressed0 : Bool := false
  is_pressed1 : Bool := false
  keycode0 : Nat := 0
  keycode1 : Nat := 0
deriving DecidableEq, Repr

/-- Embeds `ak_state_dynamic_keystroke_t` (`include/advanced_keys.h`). -/
structure ak_state_dynamic_keystroke_t where
  is_pressed : List Bool := [false, false, false, false]
  is_bottomed_out : Bool := false
deriving DecidableEq, Repr

/-- Embeds `ak_state_tap_hold_t` (`include/advanced_keys.h`). -/
structure ak_state_tap_hold_t where
  since : Nat := 0
  stage : Nat := 0
  interrupted : Bool := false
  other_key_released : Bool := false
deriving DecidableEq, Repr

/-- Embeds `ak_state_toggle_t` (`include/advanced_keys.h`). -/
structure ak_state_toggle_t where
  since : Nat := 0
  stage : Nat := 0
  is_toggled : Bool := false
deriving DecidableEq, Repr

/-- Embeds `advanced_key_state_t` (`include/advanced_keys.h`); the C `union` is
flattened into a product whose zero value is the `memset(0)` state. -/
structure advanced_key_state_t where
  null_bind : ak_state_null_bind_t := {}
  dynamic_keystroke : ak_state_dynamic_keystroke_t := {}
  tap_hold : ak_state_tap_hold_t := {}
  toggle : ak_state_toggle_t := {}
deriving DecidableEq, Repr

/-- Embeds `advanced_key_event_t` (`include/advanced_keys.h`). -/
structure advanced_key_event_t where
  type : Nat := 0
  key : Nat := 0
  keycode : Nat := 0
  ak_index : Nat := 0
deriving DecidableEq, Repr

/-- Calls the advanced-key engine makes into its collaborators, recorded in
program order. -/
inductive hmk_action where
  | layout_register (key keycode : Nat)
  | layout_unregister (key keycode : Nat)
  | deferred_action_push (action_type key keycode : Nat)
  | matrix_disable_rapid_trigger (key : Nat) (disable : Bool)
deriving DecidableEq, Repr

--------------------------------------------------------------------
-- Advanced keys: handlers (`src/advanced_keys.c`)
--------------------------------------------------------------------

/-- Embeds `advanced_key_null_bind` (`src/advanced_keys.c` 27-105). `dist` is
`key_matrix[k].distance`. -/
def advanced_key_null_bind (cfg : advanced_key_t) (st0 : ak_state_null_bind_t)
    (ev_type ev_key ev_keycode : Nat) (dist : Nat → Nat) :
    ak_state_null_bind_t × List hmk_action :=
  let nb := cfg.null_bind
  let key0 := cfg.key
  let key1 := nb.secondary_key
  let idx : Nat := if ev_key = key0 then 0 else 1
  -- update the active keycodes
  let step1 : ak_state_null_bind_t × List hmk_action :=
    if ev_type = AK_EVENT_TYPE_PRESS then
      (if idx = 0 then { st0 with keycode0 := ev_keycode }
       else { st0 with keycode1 := ev_keycode }, [])
    else if ev_type = AK_EVENT_TYPE_RELEASE then
      if idx = 0 then
        ({ st0 with is_pressed0 := false, keycode0 := KC_NO },
         if st0.is_pressed0 then [.layout_unregister key0 st0.keycode0] else [])
      else
        ({ st0 with is_pressed1 := false, keycode1 := KC_NO },
         if st0.is_pressed1 then [.layout_unregister key1 st0.keycode1] else [])
    else (st0, [])
  let st := step1.1
  let ip0 := st.keycode0 != KC_NO
  let ip1 := st.keycode1 != KC_NO
  -- Null Bind resolution when both keys are pressed
  let resolved : Bool × Bool :=
    if ip0 && ip1 then
      if (0 < nb.bottom_out_point) &&
          (nb.bottom_out_point ≤ dist key0) && (nb.bottom_out_point ≤ dist key1) then
        (true, true)
      else if nb.behavior = NB_BEHAVIOR_DISTANCE then
        let di := dist (if idx = 0 then key0 else key1)
        let dj := dist (if idx = 0 then key1 else key0)
        let win := dj ≤ di
        if idx = 0 then (win, !win) else (!win, win)
      else if ev_type = AK_EVENT_TYPE_PRESS then
        let w := (nb.behavior != NB_BEHAVIOR_NEUTRAL) &&
          ((nb.behavior == NB_BEHAVIOR_LAST) ||
           ((nb.behavior == NB_BEHAVIOR_PRIMARY) && (idx == 0)) ||
           ((nb.behavior == NB_BEHAVIOR_SECONDARY) && (idx == 1)))
        let o := (nb.behavior != NB_BEHAVIOR_NEUTRAL) && !w
        if idx = 0 then (w, o) else (o, w)
      else (st.is_pressed0, st.is_pressed1)
    else (ip0, ip1)
  -- register/unregister only the keys whose effective state changed
  let upd0 : ak_state_null_bind_t × List hmk_action :=
    if resolved.1 && !st.is_pressed0 then
      ({ st with is_pressed0 := true }, [.layout_register key0 st.keycode0])
    else if !resolved.1 && st.is_pressed0 then
      ({ st with is_pressed0 := false }, [.layout_unregister key0 st.keycode0])
    else (st, [])
  let st1 := upd0.1
  let upd1 : ak_state_null_bind_t × List hmk_action :=
    if resolved.2 && !st1.is_pressed1 then
      ({ st1 with is_pressed1 := true }, [.layout_register key1 st1.keycode1])
    else if !resolved.2 && st1.is_pressed1 then
      ({ st1 with is_pressed1 := false }, [.layout_unregister key1 st1.keycode1])
    else (st1, [])
  (upd1.1, step1.2 ++ upd0.2 ++ upd1.2)

/-- The loop over the 4 Dynamic Keystroke bindings
(`src/advanced_keys.c` 133-162). -/
def dks_bindings_loop (ev_key ev_type : Nat) (push_ok : Bool) :
    List Nat → List Nat → List Bool → List Bool × List hmk_action
  | kc :: kcs, bm :: bms, ip :: ips =>
    let rest := dks_bindings_loop ev_key ev_type push_ok kcs bms ips
    let action := (bm >>> ((ev_type - AK_EVENT_TYPE_PRESS) * 2)) % 4
    if kc = KC_NO || action = DKS_ACTION_HOLD then
      (ip :: rest.1, rest.2)
    else
      let unreg : List hmk_action :=
        if ip then [.layout_unregister ev_key kc] else []
      if action = DKS_ACTION_PRESS || action = DKS_ACTION_TAP then
        let da_type := if action = DKS_ACTION_PRESS then DEFERRED_ACTION_TYPE_PRESS
          else DEFERRED_ACTION_TYPE_TAP
        ((push_ok && (action == DKS_ACTION_PRESS)) :: rest.1,
         unreg ++ [.deferred_action_push da_type ev_key kc] ++ rest.2)
      else
        (false :: rest.1, unreg ++ rest.2)
  | _, _, ips => (ips, [])

/-- Embeds `advanced_key_dynamic_keystroke` (`src/advanced_keys.c` 107-163). -/
def advanced_key_dynamic_keystroke (cfg : advanced_key_t)
    (st0 : ak_state_dynamic_keystroke_t) (ev_type0 ev_key : Nat)
    (dist : Nat → Nat) (push_ok : Bool) :
    ak_state_dynamic_keystroke_t × List hmk_action :=
  let dks := cfg.dynamic_keystroke
  let is_bottomed_out := dks.bottom_out_point ≤ dist ev_key
  let ev_type :=
    if is_bottomed_out && !st0.is_bottomed_out then AK_EVENT_TYPE_BOTTOM_OUT
    else if (ev_type0 != AK_EVENT_TYPE_RELEASE) && !is_bottomed_out &&
        st0.is_bottomed_out then AK_EVENT_TYPE_RELEASE_FROM_BOTTOM_OUT
    else ev_type0
  let st := { st0 with is_bottomed_out := is_bottomed_out }
  if ev_type = AK_EVENT_TYPE_HOLD then (st, [])
  else
    let r := dks_bindings_loop ev_key ev_type push_ok dks.keycodes dks.bitmap st.is_pressed
    ({ st with is_pressed := r.1 },
     .matrix_disable_rapid_trigger ev_key (ev_type != AK_EVENT_TYPE_RELEASE) :: r.2)

/-- Embeds `advanced_key_tap_hold` (`src/advanced_keys.c` 165-212). `now` is
`timer_read()`; `push_ok` is the result of `deferred_action_push`. -/
def advanced_key_tap_hold (cfg : advanced_key_t) (st : ak_state_tap_hold_t)
    (ev_type ev_key now : Nat) (push_ok : Bool) :
    ak_state_tap_hold_t × List hmk_action :=
  let th := cfg.tap_hold
  if ev_type = AK_EVENT_TYPE_PRESS then
    ({ st with since := now, stage := TAP_HOLD_STAGE_TAP, interrupted := false }, [])
  else if ev_type = AK_EVENT_TYPE_RELEASE then
    let acts : List hmk_action :=
      if st.stage = TAP_HOLD_STAGE_TAP then
        if th.retro_tapping && !st.interrupted &&
            (th.tapping_term ≤ timer_elapsed now st.since) then
          -- Retro Tapping branch
          .deferred_action_push DEFERRED_ACTION_TYPE_RELEASE ev_key th.tap_keycode ::
            (if push_ok then [.layout_register ev_key th.tap_keycode] else [])
        else
          -- plain tap branch (note: identical to the branch above)
          .deferred_action_push DEFERRED_ACTION_TYPE_RELEASE ev_key th.tap_keycode ::
            (if push_ok then [.layout_register ev_key th.tap_keycode] else [])
      else if st.stage = TAP_HOLD_STAGE_HOLD then
        [.layout_unregister ev_key th.hold_keycode]
      else []
    ({ st with stage := TAP_HOLD_STAGE_NONE }, acts)
  else (st, [])

/-- Embeds `advanced_key_toggle` (`src/advanced_keys.c` 214-240). -/
def advanced_key_toggle (cfg : advanced_key_t) (st : ak_state_toggle_t)
    (ev_type ev_key now : Nat) : ak_state_toggle_t × List hmk_action :=
  let tg := cfg.toggle
  if ev_type = AK_EVENT_TYPE_PRESS then
    let toggled := !st.is_toggled
    (if toggled then
       { st with is_toggled := true, since := now, stage := TOGGLE_STAGE_TOGGLE }
     else
       { st with is_toggled := false, stage := TOGGLE_STAGE_NORMAL },
     [.layout_register ev_key tg.keycode])
  else if ev_type = AK_EVENT_TYPE_RELEASE then
    ({ st with stage := TOGGLE_STAGE_NONE },
     if !st.is_toggled then [.layout_unregister ev_key tg.keycode] else [])
  else (st, [])

/-- Embeds `advanced_key_process` (`src/advanced_keys.c` 269-293): bounds check on
`ak_index`, then dispatch on the configured type; types without a case
(`AK_TYPE_NONE`, `AK_TYPE_COMBO`, `AK_TYPE_MACRO`, out-of-range values) fall
through to `default: break`. -/
def advanced_key_process (cfgs : List advanced_key_t)
    (states : List advanced_key_state_t) (ev : advanced_key_event_t)
    (dist : Nat → Nat) (now : Nat) (push_ok : Bool) :
    List advanced_key_state_t × List hmk_action :=
  match cfgs[ev.ak_index]?, states[ev.ak_index]? with
  | some cfg, some st =>
    if cfg.type = AK_TYPE_NULL_BIND then
      let r := advanced_key_null_bind cfg st.null_bind ev.type ev.key ev.keycode dist
      (states.set ev.ak_index { st with null_bind := r.1 }, r.2)
    else if cfg.type = AK_TYPE_DYNAMIC_KEYSTROKE then
      let r := advanced_key_dynamic_keystroke cfg st.dynamic_keystroke ev.type ev.key dist push_ok
      (states.set ev.ak_index { st with dynamic_keystroke := r.1 }, r.2)
    else if cfg.type = AK_TYPE_TAP_HOLD then
      let r := advanced_key_tap_hold cfg st.tap_hold ev.type ev.key now push_ok
      (states.set ev.ak_index { st with tap_hold := r.1 }, r.2)
    else if cfg.type = AK_TYPE_TOGGLE then
      let r := advanced_key_toggle cfg st.toggle ev.type ev.key now
      (states.set ev.ak_index { st with toggle := r.1 }, r.2)
    else (states, [])
  | _, _ => (states, [])

/-- The release actions emitted by `advanced_key_clear`
(`src/advanced_keys.c` 244-267): only Tap-Hold keys in Hold stage and
Toggle keys that are toggled or mid-press are unregistered. -/
def clear_release_actions :
    List advanced_key_t → List advanced_key_state_t → List hmk_action
  | ak :: cfgs, st :: states =>
    (if ak.type = AK_TYPE_TAP_HOLD then
       if st.tap_hold.stage = TAP_HOLD_STAGE_HOLD then
         [.layout_unregister ak.key ak.tap_hold.hold_keycode]
       else []
     else if ak.type = AK_TYPE_TOGGLE then
       if st.toggle.stage ≠ TOGGLE_STAGE_NONE || st.toggle.is_toggled then
         [.layout_unregister ak.key ak.toggle.keycode]
       else []
     else []) ++ clear_release_actions cfgs states
  | _, _ => []

/-- Embeds `advanced_key_clear` (`src/advanced_keys.c` 244-267): emit the release
actions above, then `memset` every state to zero. -/
def advanced_key_clear (cfgs : List advanced_key_t)
    (states : List advanced_key_state_t) :
    List advanced_key_state_t × List hmk_action :=
  (states.map fun _ => {}, clear_release_actions cfgs states)

/-- A profile with a single Null Bind advanced key on keys 1 (primary) and 2
(secondary). -/
def c1_cfgs : List advanced_key_t :=
  [{ type := AK_TYPE_NULL_BIND, key := 1, null_bind := { secondary_key := 2 } }]

/-- A state in which the Null Bind's primary slot currently has keycode 4
registered (`is_pressed[0]` set). -/
def c1_states : List advanced_key_state_t :=
  [{ null_bind := { is_pressed0 := true, keycode0 := 4 } }]

/-- C1: `advanced_key_clear` does *not* release every registered keycode:
in a state where a Null Bind slot has `is_pressed` set (keycode 4 registered
on key 1), `clear()` emits no unregister action at all before zeroing the
state — its switch only handles `AK_TYPE_TAP_HOLD` and `AK_TYPE_TOGGLE`, so
Null Bind (and likewise Dynamic Keystroke) registrations survive as stuck
keycodes. This contradicts the spec's "must emit release events for every
currently-held key/keycode before zeroing state". -/
theorem advanced_key_clear_misses_null_bind :
    (∃ st ∈ c1_states, st.null_bind.is_pressed0 = true ∧
      st.null_bind.keycode0 = 4) ∧
    (advanced_key_clear c1_cfgs c1_states).2 = [] ∧
    (advanced_key_clear c1_cfgs c1_states).1 = [{}] := by
  refine ⟨⟨{ null_bind := { is_pressed0 := true, keycode0 := 4 } }, by decide, rfl, rfl⟩, rfl, rfl⟩

/-- A profile with a single Macro advanced key on key 3. -/
def c2_cfgs : List advanced_key_t :=
  [{ type := AK_TYPE_MACRO, key := 3, macro_index := 0 }]

/-- C2: processing a PRESS event for a Macro advanced key has *no* effect:
`advanced_key_process` has no dispatch case for `AK_TYPE_MACRO`, so the
event falls through to `default: break`; no state changes and no
register/deferred action is emitted — playback never starts, contradicting
the spec's "Pressed event begins playback at index 0". -/
theorem advanced_key_process_macro_press_noop :
    advanced_key_process c2_cfgs [{}]
      { type := AK_EVENT_TYPE_PRESS, key := 3, keycode := 0, ak_index := 0 }
      (fun _ => 0) 0 true = ([{}], []) := by
  rfl

/-- The Tap-Hold configuration of spec §8 scenario 2
(`tap = 0x04, hold = 0xE0, term = 200`) with `retro_tapping` disabled. -/
def c4_cfg : advanced_key_t :=
  { type := AK_TYPE_TAP_HOLD, key := 5,
    tap_hold := { tap_keycode := 4, hold_keycode := 0xE0,
                  tapping_term := 200, retro_tapping := false } }

/-- C4: a release while still in the Tap stage emits the tap keycode
*unconditionally*: the `retro_tapping` conditional in
`advanced_key_tap_hold` has byte-identical then/else branches, so even with
`retro_tapping = false`, an uninterrupted release at `t = 300` after a press
at `t = 0` (elapsed 300 ≥ tapping_term 200) still pushes the deferred
release and registers the tap keycode — the claim (and spec) say such a
release must emit no tap. -/
theorem tap_hold_late_release_emits_tap_despite_retro_off :
    c4_cfg.tap_hold.retro_tapping = false ∧
    c4_cfg.tap_hold.tapping_term ≤ timer_elapsed 300 0 ∧
    advanced_key_tap_hold c4_cfg
        { since := 0, stage := TAP_HOLD_STAGE_TAP, interrupted := false }
        AK_EVENT_TYPE_RELEASE 5 300 true =
      ({ since := 0, stage := TAP_HOLD_STAGE_NONE, interrupted := false },
       [.deferred_action_push DEFERRED_ACTION_TYPE_RELEASE 5 4,
        .layout_register 5 4]) := by
  refine ⟨rfl, by decide, by decide⟩

/-- C10: for every event whose `ak_index` is out of range, or whose
configured type has no dispatch case (`AK_TYPE_NONE`, `AK_TYPE_COMBO`,
`AK_TYPE_MACRO`, or any other value outside the four handled types),
`advanced_key_process` is a silent no-op: all advanced-key states are
unchanged and no register/unregister/deferred action is emitted. -/
theorem advanced_key_process_unhandled_noop (cfgs : List advanced_key_t)
    (states : List advanced_key_state_t) (ev : advanced_key_event_t)
    (dist : Nat → Nat) (now : Nat) (push_ok : Bool)
    (h : cfgs.length ≤ ev.ak_index ∨
      ∀ cfg ∈ cfgs[ev.ak_index]?, cfg.type ≠ AK_TYPE_NULL_BIND ∧
        cfg.type ≠ AK_TYPE_DYNAMIC_KEYSTROKE ∧ cfg.type ≠ AK_TYPE_TAP_HOLD ∧
        cfg.type ≠ AK_TYPE_TOGGLE) :
    advanced_key_process cfgs states ev dist now push_ok = (states, []) := by
  unfold advanced_key_process
  rcases h with h | h
  · rw [List.getElem?_eq_none h]
  · cases hc : cfgs[ev.ak_index]? with
    | none => rfl
    | some cfg =>
      cases hs : states[ev.ak_index]? with
      | none => rfl
      | some st =>
        obtain ⟨h1, h2, h3, h4⟩ := h cfg (by rw [hc]; exact rfl)
        simp only [if_neg h1, if_neg h2, if_neg h3, if_neg h4]

/-- Witness for C10: a PRESS event for an advanced key configured as a Combo
(no dispatch case) leaves the state and the action trace empty. -/
theorem advanced_key_process_unhandled_noop_witness :
    advanced_key_process [{ type := AK_TYPE_COMBO }] [{}]
      { type := AK_EVENT_TYPE_PRESS, key := 0, keycode := 0, ak_index := 0 }
      (fun _ => 0) 0 true = ([{}], []) :=
  advanced_key_process_unhandled_noop [{ type := AK_TYPE_COMBO }] [{}]
    { type := AK_EVENT_TYPE_PRESS, key := 0, keycode := 0, ak_index := 0 }
    (fun _ => 0) 0 true (Or.inr (by decide))

--------------------------------------------------------------------
-- Layout resolver (`src/layout.c`)
--------------------------------------------------------------------

/-- Embeds `layout_get_current_layer` (`src/layout.c` 40-42):
`layer_mask ? 31 - __builtin_clz(layer_mask) : default_layer`; for a nonzero
mask, `31 - clz(mask)` is the index of the highest set bit, i.e.
`Nat.log2`. -/
def layout_get_current_layer (layer_mask default_layer : Nat) : Nat :=
  if layer_mask = 0 then default_layer else Nat.log2 layer_mask

/-- The layer walk of `layout_get_keycode` (`src/layout.c` 81-89):
`for (i = current_layer + 1; i-- > 0;)`, skipping inactive layers and
returning the first non-transparent keymap entry. The argument is
`current_layer + 1`. -/
def layout_get_keycode_go (layer_mask : Nat) (keymap : Nat → Nat → Nat)
    (key : Nat) : Nat → Option Nat
  | 0 => none
  | i + 1 =>
    if layer_mask.testBit i then
      if keymap i key ≠ KC_TRANSPARENT then some (keymap i key)
      else layout_get_keycode_go layer_mask keymap key i
    else layout_get_keycode_go layer_mask keymap key i

/-- Embeds `layout_get_keycode` (`src/layout.c` 79-93): the layer walk, falling
back to `keymap[default_layer][key]`. -/
def layout_get_keycode (layer_mask default_layer : Nat)
    (keymap : Nat → Nat → Nat) (current_layer key : Nat) : Nat :=
  (layout_get_keycode_go layer_mask keymap key (current_layer + 1)).getD
    (keymap default_layer key)

theorem testBit_log2_self (m : Nat) (hm : m ≠ 0) :
    m.testBit (Nat.log2 m) = true := by
  have h1 := Nat.log2_self_le hm
  have h2 : m < 2 ^ (Nat.log2 m + 1) := Nat.lt_log2_self
  rw [Nat.testBit_to_div_mod]
  have hpos : 0 < 2 ^ Nat.log2 m := Nat.pos_pow_of_pos _ (by omega)
  have hlo : 1 ≤ m / 2 ^ Nat.log2 m := by
    rw [Nat.le_div_iff_mul_le hpos]; omega
  have hhi : m / 2 ^ Nat.log2 m < 2 := by
    rw [Nat.div_lt_iff_lt_mul hpos]
    have : 2 ^ (Nat.log2 m + 1) = 2 ^ Nat.log2 m * 2 := by
      rw [Nat.pow_succ]
    omega
  have : m / 2 ^ Nat.log2 m = 1 := by omega
  rw [this]
  rfl

theorem testBit_gt_log2 (m j : Nat) (hj : Nat.log2 m < j) :
    m.testBit j = false := by
  have h2 : m < 2 ^ (Nat.log2 m + 1) := Nat.lt_log2_self
  have : m < 2 ^ j :=
    Nat.lt_of_lt_of_le h2 (Nat.pow_le_pow_right (by omega) (by omega))
  rw [Nat.testBit_to_div_mod, Nat.div_eq_of_lt this]
  rfl

/-- Full characterization of the layer walk: either every active layer below
`n` is transparent and the walk returns `none`, or it returns the entry of
the greatest active non-transparent layer below `n`. -/
theorem layout_get_keycode_go_spec (layer_mask : Nat)
    (keymap : Nat → Nat → Nat) (key : Nat) (n : Nat) :
    (layout_get_keycode_go layer_mask keymap key n = none ∧
      ∀ i, i < n → layer_mask.testBit i = true → keymap i key = KC_TRANSPARENT) ∨
    (∃ i, i < n ∧ layer_mask.testBit i = true ∧ keymap i key ≠ KC_TRANSPARENT ∧
      (∀ j, i < j → j < n → layer_mask.testBit j = false ∨
        keymap j key = KC_TRANSPARENT) ∧
      layout_get_keycode_go layer_mask keymap key n = some (keymap i key)) := by
  induction n with
  | zero => exact Or.inl ⟨rfl, fun i hi => absurd hi (Nat.not_lt_zero i)⟩
  | succ n ih =>
    by_cases hbit : layer_mask.testBit n
    · by_cases hkc : keymap n key = KC_TRANSPARENT
      · rcases ih with ⟨hnone, hall⟩ | ⟨i, hi, hb, hk, hmax, heq⟩
        · refine Or.inl ⟨?_, ?_⟩
          · simp [layout_get_keycode_go, hbit, hkc, hnone]
          · intro i hi hb
            rcases Nat.lt_succ_iff_lt_or_eq.mp hi with hi' | rfl
            · exact hall i hi' hb
            · exact hkc
        · refine Or.inr ⟨i, Nat.lt_succ_of_lt hi, hb, hk, ?_, ?_⟩
          · intro j hij hj
            rcases Nat.lt_succ_iff_lt_or_eq.mp hj with hj' | rfl
            · exact hmax j hij hj'
            · exact Or.inr hkc
          · simp [layout_get_keycode_go, hbit, hkc, heq]
      · refine Or.inr ⟨n, Nat.lt_succ_self n, hbit, hkc, ?_, ?_⟩
        · intro j hij hj; omega
        · simp [layout_get_keycode_go, hbit, hkc]
    · rcases ih with ⟨hnone, hall⟩ | ⟨i, hi, hb, hk, hmax, heq⟩
      · refine Or.inl ⟨?_, ?_⟩
        · simp [layout_get_keycode_go, hbit, hnone]
        · intro i hi hb
          rcases Nat.lt_succ_iff_lt_or_eq.mp hi with hi' | rfl
          · exact hall i hi' hb
          · exact absurd hb (by simp [hbit])
      · refine Or.inr ⟨i, Nat.lt_succ_of_lt hi, hb, hk, ?_, ?_⟩
        · intro j hij hj
          rcases Nat.lt_succ_iff_lt_or_eq.mp hj with hj' | rfl
          · exact hmax j hij hj'
          · exact Or.inl (by simpa using hbit)
        · simp [layout_get_keycode_go, hbit, heq]

/-- C7: keycode resolution walks the active layers from the given layer down
to 0, skipping inactive layers, and returns the first (i.e. highest)
non-transparent keymap entry, falling back to
`keymap[default_layer][key]` if none exists; and the current layer is the
highest set bit of the layer mask, or `default_layer` when the mask is
empty. -/
theorem layout_keycode_resolution (layer_mask default_layer : Nat)
    (keymap : Nat → Nat → Nat) (current_layer key : Nat) :
    (layer_mask = 0 →
      layout_get_current_layer layer_mask default_layer = default_layer) ∧
    (layer_mask ≠ 0 →
      layer_mask.testBit (layout_get_current_layer layer_mask default_layer) = true ∧
      ∀ j, layout_get_current_layer layer_mask default_layer < j →
        layer_mask.testBit j = false) ∧
    ((∀ i, i ≤ current_layer → layer_mask.testBit i = true →
        keymap i key = KC_TRANSPARENT) →
      layout_get_keycode layer_mask default_layer keymap current_layer key =
        keymap default_layer key) ∧
    (∀ i, i ≤ current_layer → layer_mask.testBit i = true →
      keymap i key ≠ KC_TRANSPARENT →
      (∀ j, i < j → j ≤ current_layer → layer_mask.testBit j = true →
        keymap j key = KC_TRANSPARENT) →
      layout_get_keycode layer_mask default_layer keymap current_layer key =
        keymap i key) := by
  refine ⟨?_, ?_, ?_, ?_⟩
  · intro h; simp [layout_get_current_layer, h]
  · intro h
    refine ⟨?_, ?_⟩
    · simp only [layout_get_current_layer, if_neg h]
      exact testBit_log2_self layer_mask h
    · intro j hj
      simp only [layout_get_current_layer, if_neg h] at hj
      exact testBit_gt_log2 layer_mask j hj
  · intro hall
    rcases layout_get_keycode_go_spec layer_mask keymap key (current_layer + 1) with
      ⟨hnone, _⟩ | ⟨i, hi, hb, hk, _, _⟩
    · simp [layout_get_keycode, hnone]
    · exact absurd (hall i (Nat.lt_succ_iff.mp hi) hb) hk
  · intro i hi hb hk hmax
    rcases layout_get_keycode_go_spec layer_mask keymap key (current_layer + 1) with
      ⟨_, hall⟩ | ⟨i', hi', hb', hk', hmax', heq⟩
    · exact absurd (hall i (Nat.lt_succ_of_le hi) hb) hk
    · have : i' = i := by
        rcases Nat.lt_trichotomy i' i with hlt | heqi | hgt
        · rcases hmax' i hlt (Nat.lt_succ_of_le hi) with hf | ht
          · rw [hb] at hf; cases hf
          · exact absurd ht hk
        · exact heqi
        · exact absurd (hmax i' hgt (Nat.lt_succ_iff.mp hi') hb') hk'
      subst this
      simp [layout_get_keycode, heq]

/-- Witness for C7 at a concrete configuration: mask `0b101` (layers 0 and 2
active), default layer 0, a keymap where layer 2 is transparent on key 7 and
layer 0 maps key 7 to 9. -/
theorem layout_keycode_resolution_witness :
    ((5 : Nat) = 0 → layout_get_current_layer 5 0 = 0) ∧
    ((5 : Nat) ≠ 0 →
      (5 : Nat).testBit (layout_get_current_layer 5 0) = true ∧
      ∀ j, layout_get_current_layer 5 0 < j → (5 : Nat).testBit j = false) ∧
    ((∀ i, i ≤ 2 → (5 : Nat).testBit i = true →
        (fun i k => if i = 2 && k = 7 then KC_TRANSPARENT else 9) i 7 =
          KC_TRANSPARENT) →
      layout_get_keycode 5 0 (fun i k => if i = 2 && k = 7 then KC_TRANSPARENT else 9) 2 7 =
        (fun i k => if i = 2 && k = 7 then KC_TRANSPARENT else 9) 0 7) ∧
    (∀ i, i ≤ 2 → (5 : Nat).testBit i = true →
      (fun i k => if i = 2 && k = 7 then KC_TRANSPARENT else 9) i 7 ≠ KC_TRANSPARENT →
      (∀ j, i < j → j ≤ 2 → (5 : Nat).testBit j = true →
        (fun i k => if i = 2 && k = 7 then KC_TRANSPARENT else 9) j 7 =
          KC_TRANSPARENT) →
      layout_get_keycode 5 0 (fun i k => if i = 2 && k = 7 then KC_TRANSPARENT else 9) 2 7 =
        (fun i k => if i = 2 && k = 7 then KC_TRANSPARENT else 9) i 7) :=
  layout_keycode_resolution 5 0 (fun i k => if i = 2 && k = 7 then KC_TRANSPARENT else 9) 2 7

/-- The layout-layer state that `layout_process_key` reads and writes
(`src/layout.c` 28-110): the layer mask, default layer, the current
profile's keymap, the `advanced_key_indices[layer][key]` table (0 = no
advanced key, else index + 1), and the per-key remembered
`active_keycodes` / `active_advanced_keys` arrays. -/
structure layout_state_t where
  layer_mask : Nat := 0
  default_layer : Nat := 0
  keymap : Nat → Nat → Nat := fun _ _ => 0
  advanced_key_indices : Nat → Nat → Nat := fun _ _ => 0
  active_keycodes : Nat → Nat := fun _ => 0
  active_advanced_keys : Nat → Nat := fun _ => 0

/-- Calls `layout_process_key` makes into its collaborators, in program
order (`layout_register`/`layout_unregister`, the dispatch into
`advanced_key_process`, and `advanced_key_update_last_key_time`). -/
inductive layout_out where
  | register (key keycode : Nat)
  | unregister (key keycode : Nat)
  | ak_event (ev : advanced_key_event_t)
  | update_last_key_time
deriving DecidableEq, Repr

/-- Embeds `layout_process_key` (`src/layout.c` 155-203). Returns the new layout
state, the calls made, and the `has_non_tap_hold_press` result. -/
def layout_process_key (cfgs : List advanced_key_t) (s : layout_state_t)
    (key : Nat) (pressed : Bool) : layout_state_t × List layout_out × Bool :=
  let current_layer := layout_get_current_layer s.layer_mask s.default_layer
  if pressed then
    let keycode := layout_get_keycode s.layer_mask s.default_layer s.keymap
      current_layer key
    let ak_index := s.advanced_key_indices current_layer key
    if ak_index ≠ 0 then
      ({ s with active_advanced_keys := fun k =>
           if k = key then ak_index else s.active_advanced_keys k },
       [.ak_event { type := AK_EVENT_TYPE_PRESS, key := key,
                    keycode := keycode, ak_index := ak_index - 1 }],
       (cfgs.getD (ak_index - 1) {}).type != AK_TYPE_TAP_HOLD)
    else
      ({ s with active_keycodes := fun k =>
           if k = key then keycode else s.active_keycodes k },
       .register key keycode ::
         (if keycode ≠ KC_NO then [.update_last_key_time] else []),
       keycode != KC_NO)
  else
    let keycode := s.active_keycodes key
    let ak_index := s.active_advanced_keys key
    if ak_index ≠ 0 then
      ({ s with active_advanced_keys := fun k =>
           if k = key then 0 else s.active_advanced_keys k },
       [.ak_event { type := AK_EVENT_TYPE_RELEASE, key := key,
                    keycode := keycode, ak_index := ak_index - 1 }],
       false)
    else
      ({ s with active_keycodes := fun k =>
           if k = key then KC_NO else s.active_keycodes k },
       [.unregister key keycode], false)

/-- C8: `layout_process_key` on release uses only the remembered
`active_keycodes[key]` and `active_advanced_keys[key]` captured at press
time; any state `s'` whose two remembered arrays agree at `key` — whatever
its layer mask, default layer or keymap — produces the same release target.
A plain press stores the resolved keycode and registers it, and the
matching release (in any such `s'`) unregisters exactly that
`(key, keycode)` pair; an advanced-key press stores the advanced-key index
and the release dispatches a RELEASE event to exactly that index. -/
theorem layout_release_uses_remembered (cfgs : List advanced_key_t)
    (s : layout_state_t) (key : Nat) :
    (s.advanced_key_indices (layout_get_current_layer s.layer_mask s.default_layer) key = 0 →
      ((layout_process_key cfgs s key true).1.active_keycodes key =
        layout_get_keycode s.layer_mask s.default_layer s.keymap
          (layout_get_current_layer s.layer_mask s.default_layer) key ∧
       layout_out.register key
         (layout_get_keycode s.layer_mask s.default_layer s.keymap
           (layout_get_current_layer s.layer_mask s.default_layer) key) ∈
         (layout_process_key cfgs s key true).2.1 ∧
       ∀ s' : layout_state_t,
         s'.active_keycodes key =
           layout_get_keycode s.layer_mask s.default_layer s.keymap
             (layout_get_current_layer s.layer_mask s.default_layer) key →
         s'.active_advanced_keys key = 0 →
         (layout_process_key cfgs s' key false).2.1 =
           [.unregister key
             (layout_get_keycode s.layer_mask s.default_layer s.keymap
               (layout_get_current_layer s.layer_mask s.default_layer) key)])) ∧
    (s.advanced_key_indices (layout_get_current_layer s.layer_mask s.default_layer) key ≠ 0 →
      ((layout_process_key cfgs s key true).1.active_advanced_keys key =
        s.advanced_key_indices (layout_get_current_layer s.layer_mask s.default_layer) key ∧
       ∀ s' : layout_state_t,
         s'.active_advanced_keys key =
           s.advanced_key_indices (layout_get_current_layer s.layer_mask s.default_layer) key →
         (layout_process_key cfgs s' key false).2.1 =
           [layout_out.ak_event
             ⟨AK_EVENT_TYPE_RELEASE, key, s'.active_keycodes key,
              s.advanced_key_indices
                (layout_get_current_layer s.layer_mask s.default_layer) key - 1⟩])) := by
  constructor
  · intro h0
    refine ⟨?_, ?_, ?_⟩
    · simp [layout_process_key, h0]
    · simp [layout_process_key, h0]
    · intro s' hkc hak
      simp [layout_process_key, hak, hkc]
  · intro h0
    refine ⟨?_, ?_⟩
    · simp [layout_process_key, h0]
    · intro s' hak
      simp [layout_process_key, hak, h0]

/-- A concrete layout state for the C8 witness: empty layer mask, default
layer 0, key 1 mapped to keycode 4 everywhere, no advanced keys. -/
def c8_state : layout_state_t := { keymap := fun _ _ => 4 }

/-- Witness for C8 at `c8_state` and key 1 (its hypotheses are the two
implications' antecedents, discharged below by `rfl`-style evaluation). -/
theorem layout_release_uses_remembered_witness :
    (layout_process_key [] c8_state 1 true).1.active_keycodes 1 =
      layout_get_keycode c8_state.layer_mask c8_state.default_layer
        c8_state.keymap
        (layout_get_current_layer c8_state.layer_mask c8_state.default_layer) 1 ∧
    ∀ s' : layout_state_t,
      s'.active_keycodes 1 =
        layout_get_keycode c8_state.layer_mask c8_state.default_layer
          c8_state.keymap
          (layout_get_current_layer c8_state.layer_mask c8_state.default_layer) 1 →
      s'.active_advanced_keys 1 = 0 →
      (layout_process_key [] s' 1 false).2.1 =
        [.unregister 1
          (layout_get_keycode c8_state.layer_mask c8_state.default_layer
            c8_state.keymap
            (layout_get_current_layer c8_state.layer_mask c8_state.default_layer) 1)] := by
  have h := (layout_release_uses_remembered [] c8_state 1).1 rfl
  exact ⟨h.1, h.2.2⟩

--------------------------------------------------------------------
-- Combo detector (`src/advanced_keys.c` 337-689)
--------------------------------------------------------------------

def COMBO_QUEUE_SIZE : Nat := 16

def DEFAULT_COMBO_TERM : Nat := 50

def COMBO_KEY_NONE : Nat := 255

/-- Embeds `combo_event_t` (`src/advanced_keys.c` 345-351). -/
structure combo_event_t where
  key : Nat := 0
  pressed : Bool := true
  time : Nat := 0
  consumed : Bool := false
deriving DecidableEq, Repr

/-- The combo event ring buffer (`event_queue`/`queue_head`/`queue_tail`/
`queue_count`), modelled by the list of its live events in queue order,
together with the `flush_in_progress` recursion guard. -/
structure combo_queue_state where
  queue : List combo_event_t := []
  flush_in_progress : Bool := false
deriving DecidableEq, Repr

/-- The loop of `flush_events` (`src/advanced_keys.c` 433-443): pop up to
`n` events from the front, replaying each unconsumed one through
`layout_process_key`. Returns the remaining queue and the replayed
`(key, pressed)` calls in order. -/
def flush_events_go : Nat → List combo_event_t → List combo_event_t × List (Nat × Bool)
  | 0, q => (q, [])
  | _ + 1, [] => ([], [])
  | n + 1, ev :: q =>
    let r := flush_events_go n q
    (r.1, (if ev.consumed then [] else [(ev.key, ev.pressed)]) ++ r.2)

/-- Embeds `flush_events` (`src/advanced_keys.c` 429-446): skipped entirely when
re-entered (`flush_in_progress`); the guard is reset on exit. -/
def flush_events (count_to_flush : Nat) (s : combo_queue_state) :
    combo_queue_state × List (Nat × Bool) :=
  if s.flush_in_progress then (s, [])
  else
    let r := flush_events_go count_to_flush s.queue
    ({ s with queue := r.1 }, r.2)

/-- Embeds `queue_push` (`src/advanced_keys.c` 393-409): when the queue is full,
first flush (and pop) the oldest event, then store the new one. -/
def queue_push (key : Nat) (pressed : Bool) (time : Nat)
    (s : combo_queue_state) : combo_queue_state × List (Nat × Bool) :=
  if COMBO_QUEUE_SIZE ≤ s.queue.length then
    let r := flush_events 1 s
    ({ r.1 with queue := r.1.queue ++ [⟨key, pressed, time, false⟩] }, r.2)
  else
    ({ s with queue := s.queue ++ [⟨key, pressed, time, false⟩] }, [])

/-- C9: as long as the recursion guard is clear when a press is queued (true
at every `queue_push` call site: `flush_events` never reaches
`advanced_key_combo_process`), the combo queue never exceeds 16 events and
never drops one: pushing onto a queue of fewer than 16 events just appends,
and pushing onto a full queue first replays the oldest event through
`layout_process_key` (unless it was already consumed) and pops it, then
stores the new event — every previously stored event is still in the queue
or was consumed/replayed. -/
theorem combo_queue_push_no_overflow_no_drop (s : combo_queue_state)
    (key : Nat) (pressed : Bool) (time : Nat)
    (hguard : s.flush_in_progress = false)
    (hlen : s.queue.length ≤ COMBO_QUEUE_SIZE) :
    (queue_push key pressed time s).1.queue.length ≤ COMBO_QUEUE_SIZE ∧
    (s.queue.length < COMBO_QUEUE_SIZE →
      (queue_push key pressed time s).1.queue =
        s.queue ++ [⟨key, pressed, time, false⟩] ∧
      (queue_push key pressed time s).2 = []) ∧
    (s.queue.length = COMBO_QUEUE_SIZE →
      ∃ h0 tl, s.queue = h0 :: tl ∧
        (queue_push key pressed time s).1.queue =
          tl ++ [⟨key, pressed, time, false⟩] ∧
        (h0.consumed = true ∨
          (queue_push key pressed time s).2 = [(h0.key, h0.pressed)])) := by
  by_cases hfull : COMBO_QUEUE_SIZE ≤ s.queue.length
  · have hlen16 : s.queue.length = COMBO_QUEUE_SIZE := Nat.le_antisymm hlen hfull
    cases hq : s.queue with
    | nil => rw [hq] at hlen16; cases hlen16
    | cons h0 tl =>
      have hflush : flush_events 1 s =
          ({ s with queue := tl },
           if h0.consumed then [] else [(h0.key, h0.pressed)]) := by
        simp [flush_events, hguard, hq, flush_events_go]
      have hpush : queue_push key pressed time s =
          ({ s with queue := tl ++ [⟨key, pressed, time, false⟩] },
           if h0.consumed then [] else [(h0.key, h0.pressed)]) := by
        simp [queue_push, hfull, hflush]
      refine ⟨?_, ?_, ?_⟩
      · rw [hpush]
        simp only [List.length_append, List.length_cons, List.length_nil]
        have h1 : tl.length + 1 = COMBO_QUEUE_SIZE := by
          rw [hq] at hlen16; simpa using hlen16
        omega
      · intro hlt
        rw [← hq, hlen16] at hlt
        exact absurd hlt (Nat.lt_irrefl _)
      · intro _
        refine ⟨h0, tl, rfl, by rw [hpush], ?_⟩
        by_cases hc : h0.consumed
        · exact Or.inl hc
        · right; rw [hpush]; simp [hc]
  · have hpush : queue_push key pressed time s =
        ({ s with queue := s.queue ++ [⟨key, pressed, time, false⟩] }, []) := by
      simp [queue_push, hfull]
    refine ⟨?_, ?_, ?_⟩
    · rw [hpush]
      simp only [List.length_append, List.length_cons, List.length_nil]
      omega
    · intro _; rw [hpush]; exact ⟨rfl, rfl⟩
    · intro heq; exact absurd (heq ▸ Nat.le_refl _) hfull

/-- A full 16-event combo queue (unconsumed presses of keys 0..15). -/
def c9_state : combo_queue_state :=
  { queue := (List.range COMBO_QUEUE_SIZE).map fun i => ⟨i, true, i, false⟩ }

/-- Witness for C9 at a concrete full queue. -/
theorem combo_queue_push_no_overflow_no_drop_witness :
    (queue_push 20 true 100 c9_state).1.queue.length ≤ COMBO_QUEUE_SIZE ∧
    (c9_state.queue.length < COMBO_QUEUE_SIZE →
      (queue_push 20 true 100 c9_state).1.queue =
        c9_state.queue ++ [⟨20, true, 100, false⟩] ∧
      (queue_push 20 true 100 c9_state).2 = []) ∧
    (c9_state.queue.length = COMBO_QUEUE_SIZE →
      ∃ h0 tl, c9_state.queue = h0 :: tl ∧
        (queue_push 20 true 100 c9_state).1.queue =
          tl ++ [⟨20, true, 100, false⟩] ∧
        (h0.consumed = true ∨
          (queue_push 20 true 100 c9_state).2 = [(h0.key, h0.pressed)])) :=
  combo_queue_push_no_overflow_no_drop c9_state 20 true 100 (by decide) (by decide)

--------------------------------------------------------------------
-- Combo matching (`check_combo_match`, `process_combo_logic`)
--------------------------------------------------------------------

/-- One matcher slot: the configured trigger key `combo.keys[k]` together
with `active_part[k]` and `key_times[k]` (`src/advanced_keys.c` 456-460). -/
structure combo_slot where
  key : Nat
  active : Bool
  time : Nat
deriving DecidableEq, Repr

/-- The inner loop of `check_combo_match` over the slots
(`src/advanced_keys.c` 479-488): mark the *first* slot whose key equals the
event's key (recording the time only on the first marking); `none` when the
event's key is in no slot (a foreign press). -/
def combo_mark_key (ev_key ev_time : Nat) :
    List combo_slot → Option (List combo_slot)
  | [] => none
  | s :: rest =>
    if s.key = ev_key then
      some ({ s with
              active := true,
              time := (if s.active then s.time else ev_time) } :: rest)
    else
      (combo_mark_key ev_key ev_time rest).map (s :: ·)

/-- The queue loop of `check_combo_match` (`src/advanced_keys.c` 470-495):
skip consumed and release events, mark each press; `none` (NoMatch) as soon
as a foreign press is found. -/
def combo_scan_queue (slots : List combo_slot) :
    List combo_event_t → Option (List combo_slot)
  | [] => some slots
  | ev :: rest =>
    if ev.consumed then combo_scan_queue slots rest
    else if !ev.pressed then combo_scan_queue slots rest
    else
      match combo_mark_key ev.key ev.time slots with
      | none => none
      | some slots' => combo_scan_queue slots' rest

/-- The initial (all-inactive) slots of a combo. -/
def combo_init_slots (ak : advanced_key_t) : List combo_slot :=
  ak.combo.keys.map fun k => ⟨k, false, 0⟩

/-- Embeds `keys_required` (`src/advanced_keys.c` 463-467). -/
def combo_keys_required (nkeys : Nat) (ak : advanced_key_t) : Nat :=
  (ak.combo.keys.filter fun k =>
    (k != COMBO_KEY_NONE) && decide (k < nkeys)).length

/-- Embeds `keys_found` (`src/advanced_keys.c` 497-500). -/
def combo_keys_found (nkeys : Nat) (slots : List combo_slot) : Nat :=
  (slots.filter fun s => decide (s.key < nkeys) && s.active).length

/-- The `len` computed for a full match in `process_combo_logic`
(`src/advanced_keys.c` 559-560). -/
def combo_len (nkeys : Nat) (ak : advanced_key_t) : Nat :=
  (ak.combo.keys.filter fun k => decide (k < nkeys)).length

/-- The `first`-flag minimum of C (`min_t`, initialised by the first
element; 0 when the list is empty). -/
def fold_min_first : List Nat → Nat
  | [] => 0
  | t :: ts => ts.foldl Nat.min t

/-- The `first`-flag maximum of C (`max_t`). -/
def fold_max_first : List Nat → Nat
  | [] => 0
  | t :: ts => ts.foldl Nat.max t

/-- The recorded times of the active slots (the values the `min_t`/`max_t`
loops in `check_combo_match` run over). -/
def combo_active_times (slots : List combo_slot) : List Nat :=
  (slots.filter (·.active)).map (·.time)

/-- A combo's term with the 0-means-default rule
(`src/advanced_keys.c` 502). -/
def combo_defaulted_term (ak : advanced_key_t) : Nat :=
  if 0 < ak.combo.term then ak.combo.term else DEFAULT_COMBO_TERM

/-- Embeds `check_combo_match` (`src/advanced_keys.c` 456-540): 0 = NoMatch,
1 = Candidate, 2 = Full. (`max_t - min_t` never wraps because
`max_t ≥ min_t`; the candidate age `current_time - min_t` is the unsigned
32-bit difference.) -/
def check_combo_match (nkeys : Nat) (ak : advanced_key_t)
    (queue : List combo_event_t) (current_time : Nat) : Nat :=
  if combo_keys_required nkeys ak = 0 then 0
  else
    match combo_scan_queue (combo_init_slots ak) queue with
    | none => 0
    | some slots =>
      let term := combo_defaulted_term ak
      if combo_keys_found nkeys slots = combo_keys_required nkeys ak then
        if fold_max_first (combo_active_times slots) -
            fold_min_first (combo_active_times slots) ≤ term then 2
        else 0
      else if 0 < combo_keys_found nkeys slots then
        if combo_active_times slots ≠ [] ∧
            timer_elapsed current_time
              (fold_min_first (combo_active_times slots)) ≤ term then 1
        else 0
      else 0

/-- The accumulator of the combo loop in `process_combo_logic`
(`src/advanced_keys.c` 546-549): `best_match_idx` (-1 = `none`),
`best_match_len`, `pending_candidates` and `max_pending_term`
(initialised to `DEFAULT_COMBO_TERM`). -/
structure combo_match_acc where
  best_idx : Option Nat := none
  best_len : Nat := 0
  pending : Bool := false
  max_term : Nat := DEFAULT_COMBO_TERM
deriving DecidableEq, Repr

/-- One iteration of the combo loop of `process_combo_logic`
(`src/advanced_keys.c` 551-576). -/
def combo_match_step (nkeys layer : Nat) (queue : List combo_event_t)
    (t : Nat) (acc : combo_match_acc) (iak : Nat × advanced_key_t) :
    combo_match_acc :=
  if iak.2.type ≠ AK_TYPE_COMBO ∨ iak.2.layer ≠ layer then acc
  else
    let status := check_combo_match nkeys iak.2 queue t
    if status = 2 then
      let len := combo_len nkeys iak.2
      if acc.best_len < len then
        { acc with best_idx := some iak.1, best_len := len }
      else if len = acc.best_len then
        match acc.best_idx with
        | none => { acc with best_idx := some iak.1, best_len := len }
        | some b => if iak.1 < b then
            { acc with best_idx := some iak.1, best_len := len }
          else acc
      else acc
    else if status = 1 then
      { acc with
        pending := true,
        max_term := (if acc.max_term < combo_defaulted_term iak.2 then
          combo_defaulted_term iak.2 else acc.max_term) }
    else acc

/-- The full combo loop of `process_combo_logic` over the advanced-key
table (with indices). -/
def combo_match_fold (nkeys layer : Nat) (cfgs : List advanced_key_t)
    (queue : List combo_event_t) (t : Nat) : combo_match_acc :=
  cfgs.enum.foldl (combo_match_step nkeys layer queue t) {}

/-- What `process_combo_logic` decides to do with the queue
(`src/advanced_keys.c` 578-629). -/
inductive combo_decision where
  | defer
  | execute (idx : Nat)
  | flush_one
  | flush_all
deriving DecidableEq, Repr

/-- The decision logic of `process_combo_logic`
(`src/advanced_keys.c` 578-629): `defer` is the bare `return`. -/
def process_combo_logic_decision (nkeys layer : Nat)
    (cfgs : List advanced_key_t) (queue : List combo_event_t) (t : Nat) :
    combo_decision :=
  let acc := combo_match_fold nkeys layer cfgs queue t
  match acc.best_idx with
  | some idx =>
    if acc.pending then
      match queue.head? with
      | some h0 =>
        if acc.max_term < timer_elapsed t h0.time then .execute idx
        else .defer
      | none => .defer
    else .execute idx
  | none =>
    if acc.pending then
      match queue.head? with
      | some h0 =>
        if acc.max_term < timer_elapsed t h0.time then .flush_one
        else .defer
      | none => .defer
    else .flush_all

/-- A combo advanced key (with its index) that currently matches Full. -/
def combo_full_at (nkeys layer : Nat) (queue : List combo_event_t) (t : Nat)
    (p : Nat × advanced_key_t) : Prop :=
  p.2.type = AK_TYPE_COMBO ∧ p.2.layer = layer ∧
  check_combo_match nkeys p.2 queue t = 2

/-- A combo advanced key (with its index) that currently matches
Candidate. -/
def combo_cand_at (nkeys layer : Nat) (queue : List combo_event_t) (t : Nat)
    (p : Nat × advanced_key_t) : Prop :=
  p.2.type = AK_TYPE_COMBO ∧ p.2.layer = layer ∧
  check_combo_match nkeys p.2 queue t = 1

theorem foldl_min_le (l : List Nat) : ∀ a : Nat, l.foldl Nat.min a ≤ a := by
  induction l with
  | nil => intro a; exact Nat.le_refl a
  | cons x xs ih =>
    intro a
    exact Nat.le_trans (ih (Nat.min a x)) (Nat.min_le_left a x)

theorem foldl_min_le_mem (l : List Nat) :
    ∀ a : Nat, ∀ x ∈ l, l.foldl Nat.min a ≤ x := by
  induction l with
  | nil => intro a x hx; cases hx
  | cons y ys ih =>
    intro a x hx
    rcases List.mem_cons.mp hx with rfl | hx'
    · exact Nat.le_trans (foldl_min_le ys (Nat.min a x)) (Nat.min_le_right a x)
    · exact ih (Nat.min a y) x hx'

theorem foldl_min_mem (l : List Nat) :
    ∀ a : Nat, l.foldl Nat.min a = a ∨ l.foldl Nat.min a ∈ l := by
  induction l with
  | nil => intro a; exact Or.inl rfl
  | cons y ys ih =>
    intro a
    simp only [List.foldl_cons]
    rcases ih (Nat.min a y) with h | h
    · have hdef : Nat.min a y = if a ≤ y then a else y := rfl
      rw [h, hdef]
      split
      · exact Or.inl rfl
      · exact Or.inr (List.mem_cons_self y ys)
    · right; exact List.mem_cons_of_mem y h

/-- The C `first`-flag minimum over a nonempty list is the least element. -/
theorem fold_min_first_eq (l : List Nat) (τ : Nat) (hmem : τ ∈ l)
    (hlb : ∀ x ∈ l, τ ≤ x) : fold_min_first l = τ := by
  cases l with
  | nil => cases hmem
  | cons t ts =>
    refine Nat.le_antisymm ?_ ?_
    · rcases List.mem_cons.mp hmem with rfl | hmem'
      · exact foldl_min_le ts τ
      · exact foldl_min_le_mem ts t τ hmem'
    · rcases foldl_min_mem ts t with h | h
      · rw [fold_min_first, h]
        exact hlb t (List.mem_cons_self t ts)
      · exact hlb _ (List.mem_cons_of_mem t h)

theorem check_combo_full_facts (nkeys : Nat) (ak : advanced_key_t)
    (queue : List combo_event_t) (t : Nat)
    (h : check_combo_match nkeys ak queue t = 2) :
    combo_keys_required nkeys ak ≠ 0 ∧
    ∃ slots, combo_scan_queue (combo_init_slots ak) queue = some slots ∧
      combo_keys_found nkeys slots = combo_keys_required nkeys ak := by
  by_cases h0 : combo_keys_required nkeys ak = 0
  · rw [check_combo_match, if_pos h0] at h
    exact absurd h (by decide)
  · rw [check_combo_match, if_neg h0] at h
    revert h
    cases hscan : combo_scan_queue (combo_init_slots ak) queue with
    | none => intro h; simp at h
    | some slots =>
      intro h
      refine ⟨h0, slots, rfl, ?_⟩
      by_cases hf : combo_keys_found nkeys slots = combo_keys_required nkeys ak
      · exact hf
      · exfalso
        simp only [if_neg hf] at h
        by_cases hg : 0 < combo_keys_found nkeys slots
        · simp only [if_pos hg] at h
          split at h
          · exact absurd h (by decide)
          · exact absurd h (by decide)
        · simp only [if_neg hg] at h
          exact absurd h (by decide)

theorem check_combo_cand_facts (nkeys : Nat) (ak : advanced_key_t)
    (queue : List combo_event_t) (t : Nat)
    (h : check_combo_match nkeys ak queue t = 1) :
    combo_keys_required nkeys ak ≠ 0 ∧
    ∃ slots, combo_scan_queue (combo_init_slots ak) queue = some slots ∧
      combo_keys_found nkeys slots ≠ combo_keys_required nkeys ak ∧
      0 < combo_keys_found nkeys slots ∧
      combo_active_times slots ≠ [] ∧
      timer_elapsed t (fold_min_first (combo_active_times slots)) ≤
        combo_defaulted_term ak := by
  by_cases h0 : combo_keys_required nkeys ak = 0
  · rw [check_combo_match, if_pos h0] at h
    exact absurd h (by decide)
  · rw [check_combo_match, if_neg h0] at h
    revert h
    cases hscan : combo_scan_queue (combo_init_slots ak) queue with
    | none => intro h; simp at h
    | some slots =>
      intro h
      by_cases hf : combo_keys_found nkeys slots = combo_keys_required nkeys ak
      · exfalso
        simp only [if_pos hf] at h
        split at h
        · exact absurd h (by decide)
        · exact absurd h (by decide)
      · simp only [if_neg hf] at h
        by_cases hg : 0 < combo_keys_found nkeys slots
        · simp only [if_pos hg] at h
          refine ⟨h0, slots, rfl, hf, hg, ?_⟩
          split at h
          · rename_i hcond
            exact ⟨hcond.1, hcond.2⟩
          · exact absurd h (by decide)
        · simp only [if_neg hg] at h
          exact absurd h (by decide)

/-- The values the active slots hold. -/
def combo_active_keys (slots : List combo_slot) : List Nat :=
  (slots.filter (·.active)).map (·.key)

theorem mem_combo_active_times (slots : List combo_slot) (τ : Nat) :
    τ ∈ combo_active_times slots ↔
      ∃ s ∈ slots, s.active = true ∧ s.time = τ := by
  simp only [combo_active_times, List.mem_map, List.mem_filter]
  constructor
  · rintro ⟨s, ⟨hs, ha⟩, rfl⟩
    exact ⟨s, hs, ha, rfl⟩
  · rintro ⟨s, hs, ha, rfl⟩
    exact ⟨s, ⟨hs, ha⟩, rfl⟩

theorem mem_combo_active_keys (slots : List combo_slot) (v : Nat) :
    v ∈ combo_active_keys slots ↔
      ∃ s ∈ slots, s.active = true ∧ s.key = v := by
  simp only [combo_active_keys, List.mem_map, List.mem_filter]
  constructor
  · rintro ⟨s, ⟨hs, ha⟩, rfl⟩
    exact ⟨s, hs, ha, rfl⟩
  · rintro ⟨s, hs, ha, rfl⟩
    exact ⟨s, ⟨hs, ha⟩, rfl⟩

theorem combo_mark_key_active_persist (k τ : Nat) :
    ∀ (slots slots' : List combo_slot),
    combo_mark_key k τ slots = some slots' →
    ∀ s ∈ slots, s.active = true →
      ∃ s' ∈ slots', s'.active = true ∧ s'.key = s.key ∧ s'.time = s.time := by
  intro slots
  induction slots with
  | nil => intro slots' h; cases h
  | cons s0 rest ih =>
    intro slots' h s hs ha
    by_cases hk : s0.key = k
    · rw [combo_mark_key, if_pos hk] at h
      injection h with h
      subst h
      rcases List.mem_cons.mp hs with rfl | hs'
      · exact ⟨{ s with active := true, time := (if s.active then s.time else τ) },
          List.mem_cons_self _ _, rfl, rfl, by rw [if_pos ha]⟩
      · exact ⟨s, List.mem_cons_of_mem _ hs', ha, rfl, rfl⟩
    · rw [combo_mark_key, if_neg hk] at h
      cases hm : combo_mark_key k τ rest with
      | none => rw [hm] at h; cases h
      | some rest' =>
        rw [hm] at h
        injection h with h
        subst h
        rcases List.mem_cons.mp hs with rfl | hs'
        · exact ⟨s, List.mem_cons_self _ _, ha, rfl, rfl⟩
        · obtain ⟨s', hs'', h1, h2, h3⟩ := ih rest' hm s hs' ha
          exact ⟨s', List.mem_cons_of_mem _ hs'', h1, h2, h3⟩

theorem combo_mark_key_active_origin (k τ : Nat) :
    ∀ (slots slots' : List combo_slot),
    combo_mark_key k τ slots = some slots' →
    ∀ s' ∈ slots', s'.active = true →
      (∃ s ∈ slots, s.active = true ∧ s.key = s'.key ∧ s.time = s'.time) ∨
      (s'.key = k ∧ s'.time = τ) := by
  intro slots
  induction slots with
  | nil => intro slots' h; cases h
  | cons s0 rest ih =>
    intro slots' h s' hs' ha'
    by_cases hk : s0.key = k
    · rw [combo_mark_key, if_pos hk] at h
      injection h with h
      subst h
      rcases List.mem_cons.mp hs' with rfl | hmem
      · by_cases h0 : s0.active
        · exact Or.inl ⟨s0, List.mem_cons_self _ _, h0, rfl, by rw [if_pos h0]⟩
        · exact Or.inr ⟨hk, by rw [if_neg h0]⟩
      · exact Or.inl ⟨s', List.mem_cons_of_mem _ hmem, ha', rfl, rfl⟩
    · rw [combo_mark_key, if_neg hk] at h
      cases hm : combo_mark_key k τ rest with
      | none => rw [hm] at h; cases h
      | some rest' =>
        rw [hm] at h
        injection h with h
        subst h
        rcases List.mem_cons.mp hs' with rfl | hmem
        · exact Or.inl ⟨s', List.mem_cons_self _ _, ha', rfl, rfl⟩
        · rcases ih rest' hm s' hmem ha' with ⟨s, hs, h1, h2, h3⟩ | hk'
          · exact Or.inl ⟨s, List.mem_cons_of_mem _ hs, h1, h2, h3⟩
          · exact Or.inr hk'

theorem combo_mark_key_marks (k τ : Nat) :
    ∀ (slots slots' : List combo_slot),
    combo_mark_key k τ slots = some slots' →
    ∃ s' ∈ slots', s'.active = true ∧ s'.key = k := by
  intro slots
  induction slots with
  | nil => intro slots' h; cases h
  | cons s0 rest ih =>
    intro slots' h
    by_cases hk : s0.key = k
    · rw [combo_mark_key, if_pos hk] at h
      injection h with h
      subst h
      exact ⟨_, List.mem_cons_self _ _, rfl, hk⟩
    · rw [combo_mark_key, if_neg hk] at h
      cases hm : combo_mark_key k τ rest with
      | none => rw [hm] at h; cases h
      | some rest' =>
        rw [hm] at h
        injection h with h
        subst h
        obtain ⟨s', hs', h1, h2⟩ := ih rest' hm
        exact ⟨s', List.mem_cons_of_mem _ hs', h1, h2⟩

/-- The first-occurrence invariant: an active slot is always the first slot
holding its key. -/
def combo_slots_inv (slots : List combo_slot) : Prop :=
  slots.Pairwise fun a b => b.active = true → a.key ≠ b.key

theorem combo_slots_inv_of_inactive (slots : List combo_slot)
    (h : ∀ s ∈ slots, s.active = false) : combo_slots_inv slots := by
  induction slots with
  | nil => exact List.Pairwise.nil
  | cons s rest ih =>
    refine List.pairwise_cons.mpr ⟨?_, ih fun x hx => h x (List.mem_cons_of_mem s hx)⟩
    intro b hb hab
    rw [h b (List.mem_cons_of_mem s hb)] at hab
    cases hab

theorem combo_mark_key_inv (k τ : Nat) :
    ∀ (slots slots' : List combo_slot),
    combo_mark_key k τ slots = some slots' →
    combo_slots_inv slots → combo_slots_inv slots' := by
  intro slots
  induction slots with
  | nil => intro slots' h; cases h
  | cons s0 rest ih =>
    intro slots' h hinv
    obtain ⟨hhead, htail⟩ := List.pairwise_cons.mp hinv
    by_cases hk : s0.key = k
    · rw [combo_mark_key, if_pos hk] at h
      injection h with h
      subst h
      refine List.pairwise_cons.mpr ⟨?_, htail⟩
      intro b hb hab
      exact hhead b hb hab
    · rw [combo_mark_key, if_neg hk] at h
      cases hm : combo_mark_key k τ rest with
      | none => rw [hm] at h; cases h
      | some rest' =>
        rw [hm] at h
        injection h with h
        subst h
        refine List.pairwise_cons.mpr ⟨?_, ih rest' hm htail⟩
        intro b hb hab
        rcases combo_mark_key_active_origin k τ rest rest' hm b hb hab with
          ⟨s, hs, hsa, hkey, -⟩ | ⟨hkey, -⟩
        · rw [← hkey]
          exact hhead s hs hsa
        · rw [hkey]; exact hk

theorem combo_scan_queue_active_persist (queue : List combo_event_t) :
    ∀ (slots slots' : List combo_slot),
    combo_scan_queue slots queue = some slots' →
    ∀ s ∈ slots, s.active = true →
      ∃ s' ∈ slots', s'.active = true ∧ s'.key = s.key ∧ s'.time = s.time := by
  induction queue with
  | nil =>
    intro slots slots' h s hs ha
    rw [combo_scan_queue] at h
    injection h with h
    subst h
    exact ⟨s, hs, ha, rfl, rfl⟩
  | cons ev rest ih =>
    intro slots slots' h s hs ha
    rw [combo_scan_queue] at h
    by_cases hc : ev.consumed
    · rw [if_pos hc] at h
      exact ih slots slots' h s hs ha
    · rw [if_neg hc] at h
      by_cases hp : ev.pressed
      · simp only [hp, Bool.not_true, Bool.false_eq_true, if_false] at h
        revert h
        cases hm : combo_mark_key ev.key ev.time slots with
        | none => intro h; cases h
        | some slots₁ =>
          intro h
          obtain ⟨s₁, hs₁, h1, h2, h3⟩ :=
            combo_mark_key_active_persist ev.key ev.time slots slots₁ hm s hs ha
          obtain ⟨s', hs', g1, g2, g3⟩ := ih slots₁ slots' h s₁ hs₁ h1
          exact ⟨s', hs', g1, by rw [g2, h2], by rw [g3, h3]⟩
      · simp only [hp, Bool.not_false, if_true] at h
        exact ih slots slots' h s hs ha

theorem combo_scan_queue_active_origin (queue : List combo_event_t) :
    ∀ (slots slots' : List combo_slot),
    combo_scan_queue slots queue = some slots' →
    ∀ s' ∈ slots', s'.active = true →
      (∃ s ∈ slots, s.active = true ∧ s.key = s'.key ∧ s.time = s'.time) ∨
      (∃ ev ∈ queue, ev.consumed = false ∧ ev.pressed = true ∧
        ev.key = s'.key ∧ ev.time = s'.time) := by
  induction queue with
  | nil =>
    intro slots slots' h s' hs' ha'
    rw [combo_scan_queue] at h
    injection h with h
    subst h
    exact Or.inl ⟨s', hs', ha', rfl, rfl⟩
  | cons ev rest ih =>
    intro slots slots' h s' hs' ha'
    rw [combo_scan_queue] at h
    by_cases hc : ev.consumed
    · rw [if_pos hc] at h
      rcases ih slots slots' h s' hs' ha' with hl | ⟨ev', hmem, g⟩
      · exact Or.inl hl
      · exact Or.inr ⟨ev', List.mem_cons_of_mem _ hmem, g⟩
    · rw [if_neg hc] at h
      by_cases hp : ev.pressed
      · simp only [hp, Bool.not_true, Bool.false_eq_true, if_false] at h
        revert h
        cases hm : combo_mark_key ev.key ev.time slots with
        | none => intro h; cases h
        | some slots₁ =>
          intro h
          rcases ih slots₁ slots' h s' hs' ha' with ⟨s₁, hs₁, h1, h2, h3⟩ | ⟨ev', hmem, g⟩
          · rcases combo_mark_key_active_origin ev.key ev.time slots slots₁ hm
              s₁ hs₁ h1 with ⟨s, hs, g1, g2, g3⟩ | ⟨g1, g2⟩
            · exact Or.inl ⟨s, hs, g1, by rw [g2, h2], by rw [g3, h3]⟩
            · exact Or.inr ⟨ev, List.mem_cons_self _ _, by simpa using hc, hp,
                by rw [← h2, ← g1], by rw [← h3, ← g2]⟩
          · exact Or.inr ⟨ev', List.mem_cons_of_mem _ hmem, g⟩
      · simp only [hp, Bool.not_false, if_true] at h
        rcases ih slots slots' h s' hs' ha' with hl | ⟨ev', hmem, g⟩
        · exact Or.inl hl
        · exact Or.inr ⟨ev', List.mem_cons_of_mem _ hmem, g⟩

theorem combo_scan_queue_covers (queue : List combo_event_t) :
    ∀ (slots slots' : List combo_slot),
    combo_scan_queue slots queue = some slots' →
    ∀ ev ∈ queue, ev.consumed = false → ev.pressed = true →
      ∃ s' ∈ slots', s'.active = true ∧ s'.key = ev.key := by
  induction queue with
  | nil => intro slots slots' h ev hev; cases hev
  | cons ev0 rest ih =>
    intro slots slots' h ev hev hc hp
    rw [combo_scan_queue] at h
    rcases List.mem_cons.mp hev with rfl | hmem
    · rw [if_neg (by rw [hc]; exact Bool.false_ne_true)] at h
      simp only [hp, Bool.not_true, Bool.false_eq_true, if_false] at h
      revert h
      cases hm : combo_mark_key ev.key ev.time slots with
      | none => intro h; cases h
      | some slots₁ =>
        intro h
        obtain ⟨s₁, hs₁, h1, h2⟩ := combo_mark_key_marks ev.key ev.time slots slots₁ hm
        obtain ⟨s', hs', g1, g2, _⟩ :=
          combo_scan_queue_active_persist rest slots₁ slots' h s₁ hs₁ h1
        exact ⟨s', hs', g1, by rw [g2, h2]⟩
    · by_cases hc0 : ev0.consumed
      · rw [if_pos hc0] at h
        exact ih slots slots' h ev hmem hc hp
      · rw [if_neg hc0] at h
        by_cases hp0 : ev0.pressed
        · simp only [hp0, Bool.not_true, Bool.false_eq_true, if_false] at h
          revert h
          cases hm : combo_mark_key ev0.key ev0.time slots with
          | none => intro h; cases h
          | some slots₁ =>
            intro h
            exact ih slots₁ slots' h ev hmem hc hp
        · simp only [hp0, Bool.not_false, if_true] at h
          exact ih slots slots' h ev hmem hc hp

theorem combo_scan_queue_inv (queue : List combo_event_t) :
    ∀ (slots slots' : List combo_slot),
    combo_scan_queue slots queue = some slots' →
    combo_slots_inv slots → combo_slots_inv slots' := by
  induction queue with
  | nil =>
    intro slots slots' h hinv
    rw [combo_scan_queue] at h
    injection h with h
    subst h
    exact hinv
  | cons ev rest ih =>
    intro slots slots' h hinv
    rw [combo_scan_queue] at h
    by_cases hc : ev.consumed
    · rw [if_pos hc] at h
      exact ih slots slots' h hinv
    · rw [if_neg hc] at h
      by_cases hp : ev.pressed
      · simp only [hp, Bool.not_true, Bool.false_eq_true, if_false] at h
        revert h
        cases hm : combo_mark_key ev.key ev.time slots with
        | none => intro h; cases h
        | some slots₁ =>
          intro h
          exact ih slots₁ slots' h (combo_mark_key_inv ev.key ev.time slots slots₁ hm hinv)
      · simp only [hp, Bool.not_false, if_true] at h
        exact ih slots slots' h hinv

theorem combo_init_slots_inactive (ak : advanced_key_t) :
    ∀ s ∈ combo_init_slots ak, s.active = false := by
  intro s hs
  simp only [combo_init_slots, List.mem_map] at hs
  obtain ⟨k, _, rfl⟩ := hs
  rfl

/-- For a queue of unconsumed presses in chronological order, the minimum
recorded press time of any (successful) combo scan is exactly the queue
head's time: every queued press belongs to the combo (no foreign key), so
the head itself marks a slot with its own time, and every other recorded
time is no older. -/
theorem combo_scan_head_min (ak : advanced_key_t) (h0 : combo_event_t)
    (rest : List combo_event_t) (slots' : List combo_slot)
    (hp : ∀ ev ∈ h0 :: rest, ev.pressed = true ∧ ev.consumed = false)
    (hsorted : (h0 :: rest).Pairwise fun a b => a.time ≤ b.time)
    (hscan : combo_scan_queue (combo_init_slots ak) (h0 :: rest) = some slots') :
    fold_min_first (combo_active_times slots') = h0.time := by
  obtain ⟨hp0, hc0⟩ := hp h0 (List.mem_cons_self _ _)
  rw [combo_scan_queue, if_neg (by rw [hc0]; exact Bool.false_ne_true)] at hscan
  simp only [hp0, Bool.not_true, Bool.false_eq_true, if_false] at hscan
  revert hscan
  cases hm : combo_mark_key h0.key h0.time (combo_init_slots ak) with
  | none => intro hscan; cases hscan
  | some slots₁ =>
    intro hscan
    have hmarked : ∃ s₁ ∈ slots₁, s₁.active = true ∧ s₁.time = h0.time := by
      obtain ⟨s₁, hs₁, ha₁, _⟩ :=
        combo_mark_key_marks h0.key h0.time (combo_init_slots ak) slots₁ hm
      refine ⟨s₁, hs₁, ha₁, ?_⟩
      rcases combo_mark_key_active_origin h0.key h0.time (combo_init_slots ak)
          slots₁ hm s₁ hs₁ ha₁ with ⟨s, hs, hsa, _, _⟩ | ⟨-, ht⟩
      · rw [combo_init_slots_inactive ak s hs] at hsa; cases hsa
      · exact ht
    have hactives₁ : ∀ s₁ ∈ slots₁, s₁.active = true → s₁.time = h0.time := by
      intro s₁ hs₁ ha₁
      rcases combo_mark_key_active_origin h0.key h0.time (combo_init_slots ak)
          slots₁ hm s₁ hs₁ ha₁ with ⟨s, hs, hsa, _, _⟩ | ⟨-, ht⟩
      · rw [combo_init_slots_inactive ak s hs] at hsa; cases hsa
      · exact ht
    have hmem : h0.time ∈ combo_active_times slots' := by
      obtain ⟨s₁, hs₁, ha₁, ht₁⟩ := hmarked
      obtain ⟨s', hs', g1, _, g3⟩ :=
        combo_scan_queue_active_persist rest slots₁ slots' hscan s₁ hs₁ ha₁
      exact (mem_combo_active_times slots' h0.time).mpr ⟨s', hs', g1, by rw [g3, ht₁]⟩
    have hlb : ∀ τ ∈ combo_active_times slots', h0.time ≤ τ := by
      intro τ hτ
      obtain ⟨s', hs', ha', ht'⟩ := (mem_combo_active_times slots' τ).mp hτ
      rcases combo_scan_queue_active_origin rest slots₁ slots' hscan s' hs' ha' with
        ⟨s₁, hs₁, h1, _, h3⟩ | ⟨ev, hmemq, _, _, _, htime⟩
      · rw [← ht', ← h3, hactives₁ s₁ hs₁ h1]
      · rw [← ht', ← htime]
        exact (List.pairwise_cons.mp hsorted).1 ev hmemq
    exact fold_min_first_eq _ h0.time hmem hlb

theorem combo_keys_found_eq_active (nkeys : Nat) (slots : List combo_slot)
    (h : ∀ s ∈ slots, s.active = true → s.key < nkeys) :
    combo_keys_found nkeys slots = (combo_active_keys slots).length := by
  rw [combo_keys_found, combo_active_keys, List.length_map]
  congr 1
  apply List.filter_congr
  intro s hs
  cases ha : s.active with
  | false => simp [ha]
  | true => simp [ha, h s hs ha]

theorem combo_active_keys_nodup (ak : advanced_key_t)
    (queue : List combo_event_t) (slots' : List combo_slot)
    (hscan : combo_scan_queue (combo_init_slots ak) queue = some slots') :
    (combo_active_keys slots').Nodup := by
  have hinv : combo_slots_inv slots' :=
    combo_scan_queue_inv queue (combo_init_slots ak) slots' hscan
      (combo_slots_inv_of_inactive _ (combo_init_slots_inactive ak))
  have hfilter : (slots'.filter (·.active)).Pairwise
      (fun a b : combo_slot => a.key ≠ b.key) := by
    have h1 : (slots'.filter (·.active)).Pairwise
        (fun a b : combo_slot => b.active = true → a.key ≠ b.key) :=
      hinv.filter _
    refine h1.imp_of_mem ?_
    intro a b _ hb hr
    exact hr (by simpa using (List.mem_filter.mp hb).2)
  exact hfilter.map _ fun a b h => h

/-- The key monotonicity fact behind candidate deferral: for the same queue
of in-combo presses, any two successful scans find related key sets; every
key active for combo `aki` is a pressed key, hence also active for any
other combo `akj` whose scan succeeded. -/
theorem combo_keys_found_mono (nkeys : Nat) (aki akj : advanced_key_t)
    (queue : List combo_event_t) (slots_i slots_j : List combo_slot)
    (hscan_i : combo_scan_queue (combo_init_slots aki) queue = some slots_i)
    (hscan_j : combo_scan_queue (combo_init_slots akj) queue = some slots_j)
    (hq : ∀ ev ∈ queue, ev.pressed = true ∧ ev.consumed = false ∧
      ev.key < nkeys) :
    combo_keys_found nkeys slots_i ≤ combo_keys_found nkeys slots_j := by
  have hactive_press : ∀ s ∈ slots_i, s.active = true →
      ∃ ev ∈ queue, ev.consumed = false ∧ ev.pressed = true ∧ ev.key = s.key := by
    intro s hs ha
    rcases combo_scan_queue_active_origin queue (combo_init_slots aki) slots_i
        hscan_i s hs ha with ⟨s0, hs0, hsa, _, _⟩ | ⟨ev, hmem, g1, g2, g3, _⟩
    · rw [combo_init_slots_inactive aki s0 hs0] at hsa; cases hsa
    · exact ⟨ev, hmem, g1, g2, g3⟩
  have hactive_press_j : ∀ s ∈ slots_j, s.active = true →
      ∃ ev ∈ queue, ev.consumed = false ∧ ev.pressed = true ∧ ev.key = s.key := by
    intro s hs ha
    rcases combo_scan_queue_active_origin queue (combo_init_slots akj) slots_j
        hscan_j s hs ha with ⟨s0, hs0, hsa, _, _⟩ | ⟨ev, hmem, g1, g2, g3, _⟩
    · rw [combo_init_slots_inactive akj s0 hs0] at hsa; cases hsa
    · exact ⟨ev, hmem, g1, g2, g3⟩
  have hbound_i : ∀ s ∈ slots_i, s.active = true → s.key < nkeys := by
    intro s hs ha
    obtain ⟨ev, hmem, _, _, hkey⟩ := hactive_press s hs ha
    rw [← hkey]
    exact (hq ev hmem).2.2
  have hbound_j : ∀ s ∈ slots_j, s.active = true → s.key < nkeys := by
    intro s hs ha
    obtain ⟨ev, hmem, _, _, hkey⟩ := hactive_press_j s hs ha
    rw [← hkey]
    exact (hq ev hmem).2.2
  rw [combo_keys_found_eq_active nkeys slots_i hbound_i,
    combo_keys_found_eq_active nkeys slots_j hbound_j]
  have hsub : combo_active_keys slots_i ⊆ combo_active_keys slots_j := by
    intro v hv
    obtain ⟨s, hs, ha, hkey⟩ := (mem_combo_active_keys slots_i v).mp hv
    obtain ⟨ev, hmem, g1, g2, g3⟩ := hactive_press s hs ha
    obtain ⟨s', hs', f1, f2⟩ :=
      combo_scan_queue_covers queue (combo_init_slots akj) slots_j hscan_j
        ev hmem g1 g2
    exact (mem_combo_active_keys slots_j v).mpr
      ⟨s', hs', f1, by rw [f2, g3, hkey]⟩
  exact ((combo_active_keys_nodup aki queue slots_i hscan_i).subperm
    hsub).length_le

/-- Shows `keys_required ≤ len` (the filter in `keys_required` is stricter). -/
theorem combo_keys_required_le_len (nkeys : Nat) (ak : advanced_key_t) :
    combo_keys_required nkeys ak ≤ combo_len nkeys ak := by
  rw [combo_keys_required, combo_len, ← List.filter_filter]
  exact List.length_filter_le _ _

/-- With at most 255 keys, `len = keys_required` (no trigger key below
`nkeys` can be the 255 sentinel). -/
theorem combo_len_eq_required (nkeys : Nat) (ak : advanced_key_t)
    (hNK : nkeys ≤ 255) :
    combo_len nkeys ak = combo_keys_required nkeys ak := by
  rw [combo_keys_required, combo_len]
  congr 1
  apply List.filter_congr
  intro k _
  cases hk : decide (k < nkeys) with
  | false => simp
  | true =>
    have : k < nkeys := of_decide_eq_true hk
    have : k ≠ COMBO_KEY_NONE := by rw [COMBO_KEY_NONE]; omega
    simp [this]

theorem mem_enumFrom_fst_ge (l : List advanced_key_t) :
    ∀ (n : Nat) (p : Nat × advanced_key_t), p ∈ l.enumFrom n → n ≤ p.1 := by
  induction l with
  | nil => intro n p hp; cases hp
  | cons x xs ih =>
    intro n p hp
    rw [List.enumFrom] at hp
    rcases List.mem_cons.mp hp with rfl | hp'
    · exact Nat.le_refl n
    · exact Nat.le_of_succ_le (ih (n + 1) p hp')

theorem enumFrom_pairwise_fst_lt (l : List advanced_key_t) :
    ∀ n : Nat, (l.enumFrom n).Pairwise fun p q => p.1 < q.1 := by
  induction l with
  | nil => intro n; exact List.Pairwise.nil
  | cons x xs ih =>
    intro n
    rw [List.enumFrom]
    refine List.pairwise_cons.mpr ⟨?_, ih (n + 1)⟩
    intro q hq
    exact Nat.lt_of_succ_le (mem_enumFrom_fst_ge xs (n + 1) q hq)

theorem enum_pairwise_fst_lt (l : List advanced_key_t) :
    l.enum.Pairwise fun p q => p.1 < q.1 :=
  enumFrom_pairwise_fst_lt l 0

/-- A full match has at least one required key, hence positive `len`. -/
theorem combo_full_len_pos (nkeys layer : Nat) (queue : List combo_event_t)
    (t : Nat) (p : Nat × advanced_key_t)
    (h : combo_full_at nkeys layer queue t p) : 0 < combo_len nkeys p.2 := by
  obtain ⟨hreq, -⟩ := check_combo_full_facts nkeys p.2 queue t h.2.2
  have := combo_keys_required_le_len nkeys p.2
  omega

/-- Behavior of one iteration of the combo loop of `process_combo_logic`. -/
theorem combo_match_step_spec (nkeys layer : Nat) (queue : List combo_event_t)
    (t : Nat) (acc : combo_match_acc) (p : Nat × advanced_key_t)
    (hacc : acc.best_idx = none → acc.best_len = 0)
    (hno : ∀ b0, acc.best_idx = some b0 → ¬ p.1 < b0) :
    ((combo_match_step nkeys layer queue t acc p).pending = true ↔
      (acc.pending = true ∨ combo_cand_at nkeys layer queue t p)) ∧
    acc.max_term ≤ (combo_match_step nkeys layer queue t acc p).max_term ∧
    (combo_cand_at nkeys layer queue t p →
      combo_defaulted_term p.2 ≤ (combo_match_step nkeys layer queue t acc p).max_term) ∧
    (((combo_match_step nkeys layer queue t acc p).best_idx = acc.best_idx ∧
        (combo_match_step nkeys layer queue t acc p).best_len = acc.best_len) ∨
      ((combo_match_step nkeys layer queue t acc p).best_idx = some p.1 ∧
        (combo_match_step nkeys layer queue t acc p).best_len = combo_len nkeys p.2 ∧
        combo_full_at nkeys layer queue t p ∧
        (acc.best_len < combo_len nkeys p.2 ∨
          (acc.best_len = combo_len nkeys p.2 ∧ acc.best_idx = none)))) ∧
    acc.best_len ≤ (combo_match_step nkeys layer queue t acc p).best_len ∧
    (combo_full_at nkeys layer queue t p →
      combo_len nkeys p.2 ≤ (combo_match_step nkeys layer queue t acc p).best_len ∧
      (combo_len nkeys p.2 = (combo_match_step nkeys layer queue t acc p).best_len →
        ∀ b, (combo_match_step nkeys layer queue t acc p).best_idx = some b → b ≤ p.1)) ∧
    ((combo_match_step nkeys layer queue t acc p).best_idx = none →
      acc.best_idx = none ∧
      (combo_match_step nkeys layer queue t acc p).best_len = acc.best_len ∧
      ¬ combo_full_at nkeys layer queue t p) := by
  by_cases hskip : p.2.type ≠ AK_TYPE_COMBO ∨ p.2.layer ≠ layer
  · have hstep : combo_match_step nkeys layer queue t acc p = acc := by
      rw [combo_match_step, if_pos hskip]
    have hnc : ¬ combo_cand_at nkeys layer queue t p := by
      rintro ⟨h1, h2, -⟩
      rcases hskip with h | h
      · exact h h1
      · exact h h2
    have hnf : ¬ combo_full_at nkeys layer queue t p := by
      rintro ⟨h1, h2, -⟩
      rcases hskip with h | h
      · exact h h1
      · exact h h2
    rw [hstep]
    exact ⟨by simp [hnc], Nat.le_refl _, fun hc => absurd hc hnc,
      Or.inl ⟨rfl, rfl⟩, Nat.le_refl _, fun hf => absurd hf hnf,
      fun hn => ⟨hn, rfl, hnf⟩⟩
  · push_neg at hskip
    obtain ⟨htype, hlayer⟩ := hskip
    have hfull_iff : combo_full_at nkeys layer queue t p ↔
        check_combo_match nkeys p.2 queue t = 2 :=
      ⟨fun h => h.2.2, fun h => ⟨htype, hlayer, h⟩⟩
    have hcand_iff : combo_cand_at nkeys layer queue t p ↔
        check_combo_match nkeys p.2 queue t = 1 :=
      ⟨fun h => h.2.2, fun h => ⟨htype, hlayer, h⟩⟩
    have hnskip : ¬ (p.2.type ≠ AK_TYPE_COMBO ∨ p.2.layer ≠ layer) := by
      push_neg
      exact ⟨htype, hlayer⟩
    by_cases h2 : check_combo_match nkeys p.2 queue t = 2
    · have hfull : combo_full_at nkeys layer queue t p := hfull_iff.mpr h2
      have hnc : ¬ combo_cand_at nkeys layer queue t p := by
        intro hc
        rw [hcand_iff] at hc
        omega
      by_cases hgt : acc.best_len < combo_len nkeys p.2
      · have hstep : combo_match_step nkeys layer queue t acc p =
            { acc with best_idx := some p.1, best_len := combo_len nkeys p.2 } := by
          simp [combo_match_step, hnskip, h2, hgt]
        rw [hstep]
        refine ⟨by simp [hnc], Nat.le_refl _, fun hc => absurd hc hnc,
          Or.inr ⟨rfl, rfl, hfull, Or.inl hgt⟩, Nat.le_of_lt hgt, ?_,
          fun hn => by simp at hn⟩
        intro _
        refine ⟨Nat.le_refl _, fun _ b hb => ?_⟩
        have hb2 : some p.1 = some b := hb
        injection hb2 with hb2
        omega
      · by_cases heq : combo_len nkeys p.2 = acc.best_len
        · cases hbi : acc.best_idx with
          | none =>
            have hstep : combo_match_step nkeys layer queue t acc p =
                { acc with best_idx := some p.1, best_len := combo_len nkeys p.2 } := by
              simp [combo_match_step, hnskip, h2, hgt, heq, hbi]
            rw [hstep]
            refine ⟨by simp [hnc], Nat.le_refl _, fun hc => absurd hc hnc,
              Or.inr ⟨rfl, rfl, hfull, Or.inr ⟨heq.symm, rfl⟩⟩,
              Nat.le_of_eq heq.symm, ?_,
              fun hn => by simp at hn⟩
            intro _
            refine ⟨Nat.le_refl _, fun _ b hb => ?_⟩
            have hb2 : some p.1 = some b := hb
            injection hb2 with hb2
            omega
          | some b0 =>
            by_cases hlt : p.1 < b0
            · exact absurd hlt (hno b0 hbi)
            · have hstep : combo_match_step nkeys layer queue t acc p = acc := by
                simp [combo_match_step, hnskip, h2, hgt, heq, hbi, hlt]
              rw [hstep]
              refine ⟨by simp [hnc], Nat.le_refl _, fun hc => absurd hc hnc,
                Or.inl ⟨hbi, rfl⟩, Nat.le_refl _, ?_, ?_⟩
              · intro _
                refine ⟨Nat.le_of_eq heq, fun _ b hb => ?_⟩
                rw [hbi] at hb
                injection hb with hb
                omega
              · intro hn
                rw [hbi] at hn
                cases hn
        · have hstep : combo_match_step nkeys layer queue t acc p = acc := by
            simp [combo_match_step, hnskip, h2, hgt, heq]
          rw [hstep]
          refine ⟨by simp [hnc], Nat.le_refl _, fun hc => absurd hc hnc,
            Or.inl ⟨rfl, rfl⟩, Nat.le_refl _, ?_, ?_⟩
          · intro _
            refine ⟨by omega, fun hl _ _ => absurd hl heq⟩
          · intro hn
            have h0 := hacc hn
            have hpos := combo_full_len_pos nkeys layer queue t p hfull
            omega
    · by_cases h1 : check_combo_match nkeys p.2 queue t = 1
      · have hcand : combo_cand_at nkeys layer queue t p := hcand_iff.mpr h1
        have hnf : ¬ combo_full_at nkeys layer queue t p := by
          intro hf
          rw [hfull_iff] at hf
          omega
        have hstep : combo_match_step nkeys layer queue t acc p =
            { acc with
              pending := true,
              max_term := (if acc.max_term < combo_defaulted_term p.2 then
                combo_defaulted_term p.2 else acc.max_term) } := by
          simp [combo_match_step, hnskip, h1]
        rw [hstep]
        refine ⟨by simp [hcand], ?_, ?_, Or.inl ⟨rfl, rfl⟩, Nat.le_refl _,
          fun hf => absurd hf hnf, fun hn => ⟨hn, rfl, hnf⟩⟩
        · show acc.max_term ≤ if acc.max_term < combo_defaulted_term p.2 then
            combo_defaulted_term p.2 else acc.max_term
          split <;> omega
        · intro _
          show combo_defaulted_term p.2 ≤
            if acc.max_term < combo_defaulted_term p.2 then
              combo_defaulted_term p.2 else acc.max_term
          split <;> omega
      · have hnc : ¬ combo_cand_at nkeys layer queue t p := by
          intro hc
          rw [hcand_iff] at hc
          omega
        have hnf : ¬ combo_full_at nkeys layer queue t p := by
          intro hf
          rw [hfull_iff] at hf
          omega
        have hstep : combo_match_step nkeys layer queue t acc p = acc := by
          simp [combo_match_step, hnskip, h2, h1]
        rw [hstep]
        exact ⟨by simp [hnc], Nat.le_refl _, fun hc => absurd hc hnc,
          Or.inl ⟨rfl, rfl⟩, Nat.le_refl _, fun hf => absurd hf hnf,
          fun hn => ⟨hn, rfl, hnf⟩⟩

/-- Behavior of the whole combo loop of `process_combo_logic`, by induction
over the (index, advanced-key) list: pending/max-term tracking and the
longest-match, lowest-index selection. -/
theorem combo_match_fold_facts (nkeys layer : Nat)
    (queue : List combo_event_t) (t : Nat) :
    ∀ (l : List (Nat × advanced_key_t)) (acc : combo_match_acc),
    (acc.best_idx = none → acc.best_len = 0) →
    (∀ b, acc.best_idx = some b → ∀ p ∈ l, b < p.1) →
    l.Pairwise (fun p q => p.1 < q.1) →
    ((l.foldl (combo_match_step nkeys layer queue t) acc).pending = true ↔
      (acc.pending = true ∨ ∃ p ∈ l, combo_cand_at nkeys layer queue t p)) ∧
    acc.max_term ≤
      (l.foldl (combo_match_step nkeys layer queue t) acc).max_term ∧
    (∀ p ∈ l, combo_cand_at nkeys layer queue t p →
      combo_defaulted_term p.2 ≤
        (l.foldl (combo_match_step nkeys layer queue t) acc).max_term) ∧
    (∀ b, (l.foldl (combo_match_step nkeys layer queue t) acc).best_idx = some b →
      (acc.best_idx = some b ∧
        (l.foldl (combo_match_step nkeys layer queue t) acc).best_len = acc.best_len) ∨
      (∃ akb, (b, akb) ∈ l ∧ combo_full_at nkeys layer queue t (b, akb) ∧
        (l.foldl (combo_match_step nkeys layer queue t) acc).best_len =
          combo_len nkeys akb ∧
        (acc.best_len < combo_len nkeys akb ∨
          (acc.best_len = combo_len nkeys akb ∧ acc.best_idx = none)))) ∧
    acc.best_len ≤
      (l.foldl (combo_match_step nkeys layer queue t) acc).best_len ∧
    (∀ p ∈ l, combo_full_at nkeys layer queue t p →
      combo_len nkeys p.2 <
        (l.foldl (combo_match_step nkeys layer queue t) acc).best_len ∨
      (combo_len nkeys p.2 =
        (l.foldl (combo_match_step nkeys layer queue t) acc).best_len ∧
        ∀ b, (l.foldl (combo_match_step nkeys layer queue t) acc).best_idx =
          some b → b ≤ p.1)) ∧
    ((l.foldl (combo_match_step nkeys layer queue t) acc).best_idx = none →
      acc.best_idx = none ∧
      (l.foldl (combo_match_step nkeys layer queue t) acc).best_len = acc.best_len ∧
      ∀ p ∈ l, ¬ combo_full_at nkeys layer queue t p) := by
  intro l
  induction l with
  | nil =>
    intro acc hacc _ _
    rw [List.foldl_nil]
    refine ⟨by simp, Nat.le_refl _, by simp, ?_, Nat.le_refl _, by simp, ?_⟩
    · intro b hb
      exact Or.inl ⟨hb, rfl⟩
    · intro hn
      exact ⟨hn, rfl, by simp⟩
  | cons p rest ih =>
    intro acc hacc hno hsorted
    simp only [List.foldl_cons]
    obtain ⟨hhd, htl⟩ := List.pairwise_cons.mp hsorted
    have hno1 : ∀ b0, acc.best_idx = some b0 → ¬ p.1 < b0 := by
      intro b0 hb0 hlt
      exact Nat.lt_irrefl _ (Nat.lt_trans hlt (hno b0 hb0 p (List.mem_cons_self _ _)))
    obtain ⟨s_pend, s_maxmono, s_maxcand, s_best, s_lenmono, s_dom, s_none⟩ :=
      combo_match_step_spec nkeys layer queue t acc p hacc hno1
    set mid := combo_match_step nkeys layer queue t acc p with hmid
    have hacc' : mid.best_idx = none → mid.best_len = 0 := by
      intro hn
      obtain ⟨h1, h2, -⟩ := s_none hn
      rw [h2]
      exact hacc h1
    have hno' : ∀ b, mid.best_idx = some b → ∀ q ∈ rest, b < q.1 := by
      intro b hb q hq
      rcases s_best with ⟨h1, -⟩ | ⟨h1, -, -, -⟩
      · exact hno b (h1 ▸ hb) q (List.mem_cons_of_mem _ hq)
      · rw [h1] at hb
        injection hb with hb
        rw [← hb]
        exact hhd q hq
    obtain ⟨f_pend, f_maxmono, f_maxcand, f_best, f_lenmono, f_dom, f_none⟩ :=
      ih mid hacc' hno' htl
    refine ⟨?_, ?_, ?_, ?_, ?_, ?_, ?_⟩
    · -- pending
      rw [f_pend, s_pend]
      constructor
      · rintro ((h | h) | ⟨q, hq, hc⟩)
        · exact Or.inl h
        · exact Or.inr ⟨p, List.mem_cons_self _ _, h⟩
        · exact Or.inr ⟨q, List.mem_cons_of_mem _ hq, hc⟩
      · rintro (h | ⟨q, hq, hc⟩)
        · exact Or.inl (Or.inl h)
        · rcases List.mem_cons.mp hq with rfl | hq'
          · exact Or.inl (Or.inr hc)
          · exact Or.inr ⟨q, hq', hc⟩
    · exact Nat.le_trans s_maxmono f_maxmono
    · intro q hq hc
      rcases List.mem_cons.mp hq with rfl | hq'
      · exact Nat.le_trans (s_maxcand hc) f_maxmono
      · exact f_maxcand q hq' hc
    · intro b hb
      rcases f_best b hb with ⟨h1, h2⟩ | ⟨akb, hmem, hfull, hlen, hcrit⟩
      · rcases s_best with ⟨g1, g2⟩ | ⟨g1, g2, g3, g4⟩
        · exact Or.inl ⟨g1 ▸ h1, by rw [h2, g2]⟩
        · rw [g1] at h1
          injection h1 with h1
          refine Or.inr ⟨p.2, ?_, ?_, ?_, ?_⟩
          · rw [← h1]; exact List.mem_cons_self _ _
          · rw [← h1]; exact g3
          · rw [h2, g2]
          · exact g4
      · refine Or.inr ⟨akb, List.mem_cons_of_mem _ hmem, hfull, hlen, ?_⟩
        rcases hcrit with hlt | ⟨heq2, hn⟩
        · exact Or.inl (Nat.lt_of_le_of_lt s_lenmono hlt)
        · obtain ⟨g1, g2, -⟩ := s_none hn
          rw [g2] at heq2
          exact Or.inr ⟨heq2, g1⟩
    · exact Nat.le_trans s_lenmono f_lenmono
    · intro q hq hfullq
      rcases List.mem_cons.mp hq with rfl | hq'
      · obtain ⟨hle, htie⟩ := s_dom hfullq
        rcases Nat.lt_or_ge (combo_len nkeys q.2)
            ((rest.foldl (combo_match_step nkeys layer queue t) mid).best_len)
          with hlt | hge
        · exact Or.inl hlt
        · have heq2 : combo_len nkeys q.2 =
              (rest.foldl (combo_match_step nkeys layer queue t) mid).best_len :=
            Nat.le_antisymm (Nat.le_trans hle f_lenmono) hge
        -- tie with the final best: trace the final best back
          refine Or.inr ⟨heq2, ?_⟩
          intro b hb
          rcases f_best b hb with ⟨h1, h2⟩ | ⟨akb, hmem, -, hlen, hcrit⟩
          · exact htie (by omega) b h1
          · exfalso
            rcases hcrit with hlt2 | ⟨-, hn⟩
            · omega
            · obtain ⟨-, g2, -⟩ := s_none hn
              have := hacc' hn
              have hpos := combo_full_len_pos nkeys layer queue t q hfullq
              omega
      · exact f_dom q hq' hfullq
    · intro hn
      obtain ⟨h1, h2, h3⟩ := f_none hn
      obtain ⟨g1, g2, g3⟩ := s_none h1
      refine ⟨g1, by rw [h2, g2], ?_⟩
      intro q hq
      rcases List.mem_cons.mp hq with rfl | hq'
      · exact g3
      · exact h3 q hq'

theorem combo_mark_key_keys (k τ : Nat) :
    ∀ (slots slots' : List combo_slot),
    combo_mark_key k τ slots = some slots' →
    slots'.map (·.key) = slots.map (·.key) := by
  intro slots
  induction slots with
  | nil => intro slots' h; cases h
  | cons s0 rest ih =>
    intro slots' h
    by_cases hk : s0.key = k
    · rw [combo_mark_key, if_pos hk] at h
      injection h with h
      subst h
      rfl
    · rw [combo_mark_key, if_neg hk] at h
      cases hm : combo_mark_key k τ rest with
      | none => rw [hm] at h; cases h
      | some rest' =>
        rw [hm] at h
        injection h with h
        subst h
        simp only [List.map_cons]
        rw [ih rest' hm]

theorem combo_scan_queue_keys (queue : List combo_event_t) :
    ∀ (slots slots' : List combo_slot),
    combo_scan_queue slots queue = some slots' →
    slots'.map (·.key) = slots.map (·.key) := by
  induction queue with
  | nil =>
    intro slots slots' h
    rw [combo_scan_queue] at h
    injection h with h
    subst h
    rfl
  | cons ev rest ih =>
    intro slots slots' h
    rw [combo_scan_queue] at h
    by_cases hc : ev.consumed
    · rw [if_pos hc] at h
      exact ih slots slots' h
    · rw [if_neg hc] at h
      by_cases hp : ev.pressed
      · simp only [hp, Bool.not_true, Bool.false_eq_true, if_false] at h
        revert h
        cases hm : combo_mark_key ev.key ev.time slots with
        | none => intro h; cases h
        | some slots₁ =>
          intro h
          rw [ih slots₁ slots' h]
          exact combo_mark_key_keys ev.key ev.time slots slots₁ hm
      · simp only [hp, Bool.not_false, if_true] at h
        exact ih slots slots' h

/-- Shows `keys_found` never exceeds `len` (the slots carry exactly the combo's
trigger keys). -/
theorem combo_keys_found_le_len (nkeys : Nat) (ak : advanced_key_t)
    (queue : List combo_event_t) (slots : List combo_slot)
    (hscan : combo_scan_queue (combo_init_slots ak) queue = some slots) :
    combo_keys_found nkeys slots ≤ combo_len nkeys ak := by
  have hkeys : slots.map (·.key) = ak.combo.keys := by
    rw [combo_scan_queue_keys queue (combo_init_slots ak) slots hscan]
    rw [combo_init_slots, List.map_map]
    exact List.map_id ak.combo.keys
  have h1 : combo_keys_found nkeys slots ≤
      (slots.filter fun s => decide (s.key < nkeys)).length := by
    rw [combo_keys_found]
    have hcomm : (slots.filter fun s => decide (s.key < nkeys) && s.active) =
        (slots.filter fun s => s.active && decide (s.key < nkeys)) := by
      apply List.filter_congr
      intro s _
      exact Bool.and_comm _ _
    rw [hcomm, ← List.filter_filter]
    exact List.length_filter_le _ _
  have h2 : (slots.filter fun s => decide (s.key < nkeys)).length =
      combo_len nkeys ak := by
    rw [combo_len, ← hkeys, List.filter_map, List.length_map]
    rfl
  omega

/-- C5: whenever combo matching has at least one Full match (over a queue of
unconsumed, in-order presses of valid keys), `process_combo_logic` selects
the longest fully matched combo, ties broken by the lowest advanced-key
index; the decision is either to execute exactly that combo or to defer, and
it defers exactly while a Candidate combo exists — such a candidate
necessarily has a strictly longer required key sequence than the selected
combo, and its deadline `min_press_time + term` (term defaulting to 50 ms
when configured 0) has not elapsed. -/
theorem combo_selection_and_deferral (nkeys layer t : Nat)
    (cfgs : List advanced_key_t) (queue : List combo_event_t)
    (hNK : nkeys ≤ 255)
    (hq : ∀ ev ∈ queue, ev.pressed = true ∧ ev.consumed = false ∧
      ev.key < nkeys)
    (hsorted : queue.Pairwise fun a b => a.time ≤ b.time)
    (hbound : ∀ ev ∈ queue, ev.time ≤ t) (ht : t < 2 ^ 32)
    (hfull : ∃ p ∈ cfgs.enum, combo_full_at nkeys layer queue t p) :
    ∃ b akb, (b, akb) ∈ cfgs.enum ∧
      combo_full_at nkeys layer queue t (b, akb) ∧
      (∀ p ∈ cfgs.enum, combo_full_at nkeys layer queue t p →
        combo_len nkeys p.2 < combo_len nkeys akb ∨
        (combo_len nkeys p.2 = combo_len nkeys akb ∧ b ≤ p.1)) ∧
      (process_combo_logic_decision nkeys layer cfgs queue t =
          combo_decision.defer ∨
        process_combo_logic_decision nkeys layer cfgs queue t =
          combo_decision.execute b) ∧
      (process_combo_logic_decision nkeys layer cfgs queue t =
          combo_decision.defer ↔
        ∃ q ∈ cfgs.enum, combo_cand_at nkeys layer queue t q ∧
          combo_len nkeys akb < combo_keys_required nkeys q.2 ∧
          ∃ h0, queue.head? = some h0 ∧
            t - h0.time ≤ combo_defaulted_term q.2) := by
  obtain ⟨f_pend, f_maxmono, f_maxcand, f_best, f_lenmono, f_dom, f_none⟩ :=
    combo_match_fold_facts nkeys layer queue t cfgs.enum {}
      (fun _ => rfl) (fun b hb => by cases hb) (enum_pairwise_fst_lt cfgs)
  have hfold : combo_match_fold nkeys layer cfgs queue t =
      cfgs.enum.foldl (combo_match_step nkeys layer queue t) {} := rfl
  -- the fold must have found a best index
  cases hbi : (cfgs.enum.foldl (combo_match_step nkeys layer queue t)
      ({} : combo_match_acc)).best_idx with
  | none =>
    obtain ⟨-, -, hnof⟩ := f_none hbi
    obtain ⟨p, hp, hfp⟩ := hfull
    exact absurd hfp (hnof p hp)
  | some b =>
    rcases f_best b hbi with ⟨habs, -⟩ | ⟨akb, hmem, hfullb, hlen, -⟩
    · cases habs
    -- facts about the selected full match
    obtain ⟨hreq_b, slots_b, hscan_b, hfound_b⟩ :=
      check_combo_full_facts nkeys akb queue t hfullb.2.2
    -- every candidate is strictly longer than the selected combo and has an
    -- unelapsed deadline measured from the queue head
    have hcand_facts : ∀ q, combo_cand_at nkeys layer queue t q →
        combo_len nkeys akb < combo_keys_required nkeys q.2 ∧
        ∃ h0, queue.head? = some h0 ∧
          timer_elapsed t h0.time ≤ combo_defaulted_term q.2 := by
      intro q hc
      obtain ⟨hreq_q, slots_q, hscan_q, hne_q, hpos_q, htne_q, helapsed_q⟩ :=
        check_combo_cand_facts nkeys q.2 queue t hc.2.2
      -- the queue is nonempty: some slot of the candidate is active
      obtain ⟨s, hsmem, hsact⟩ : ∃ s ∈ slots_q, s.active = true := by
        rw [combo_keys_found] at hpos_q
        cases hfq : slots_q.filter fun s => decide (s.key < nkeys) && s.active with
        | nil => rw [hfq] at hpos_q; simp at hpos_q
        | cons s srest =>
          have hs := List.mem_filter.mp (hfq ▸ List.mem_cons_self s srest)
          exact ⟨s, hs.1, ((Bool.and_eq_true _ _).mp hs.2).2⟩
      obtain ⟨ev0, hev0, -⟩ : ∃ ev ∈ queue, ev.consumed = false := by
        rcases combo_scan_queue_active_origin queue (combo_init_slots q.2)
            slots_q hscan_q s hsmem hsact with ⟨s0, hs0, hsa, -, -⟩ | ⟨ev, hevm, g1, -, -, -⟩
        · rw [combo_init_slots_inactive q.2 s0 hs0] at hsa; cases hsa
        · exact ⟨ev, hevm, g1⟩
      cases hqq : queue with
      | nil => rw [hqq] at hev0; cases hev0
      | cons h0 qrest =>
        have hminq : fold_min_first (combo_active_times slots_q) = h0.time := by
          refine combo_scan_head_min q.2 h0 qrest slots_q ?_ ?_ ?_
          · intro ev hev
            have := hq ev (hqq ▸ hev)
            exact ⟨this.1, this.2.1⟩
          · exact hqq ▸ hsorted
          · exact hqq ▸ hscan_q
        refine ⟨?_, h0, rfl, ?_⟩
        · -- strictly longer: found_b ≤ found_q < required_q
          have hmono : combo_keys_found nkeys slots_b ≤
              combo_keys_found nkeys slots_q :=
            combo_keys_found_mono nkeys akb q.2 queue slots_b slots_q
              hscan_b hscan_q hq
          have hle_q : combo_keys_found nkeys slots_q ≤ combo_len nkeys q.2 :=
            combo_keys_found_le_len nkeys q.2 queue slots_q hscan_q
          have hlen_req_q : combo_len nkeys q.2 = combo_keys_required nkeys q.2 :=
            combo_len_eq_required nkeys q.2 hNK
          have hlen_req_b : combo_len nkeys akb = combo_keys_required nkeys akb :=
            combo_len_eq_required nkeys akb hNK
          omega
        · rw [hminq] at helapsed_q
          exact helapsed_q
    -- pending is exactly "some candidate exists"
    have hpend_iff : (cfgs.enum.foldl (combo_match_step nkeys layer queue t)
        ({} : combo_match_acc)).pending = true ↔
        ∃ q ∈ cfgs.enum, combo_cand_at nkeys layer queue t q := by
      rw [f_pend]
      simp only [show ({} : combo_match_acc).pending = false from rfl]
      simp
    -- if a candidate exists, the decision is to defer
    have hdefer : (∃ q ∈ cfgs.enum, combo_cand_at nkeys layer queue t q) →
        process_combo_logic_decision nkeys layer cfgs queue t =
          combo_decision.defer := by
      rintro ⟨q, hqm, hc⟩
      obtain ⟨-, h0, hhead, helapsed⟩ := hcand_facts q hc
      have hterm : combo_defaulted_term q.2 ≤
          (cfgs.enum.foldl (combo_match_step nkeys layer queue t)
            ({} : combo_match_acc)).max_term :=
        f_maxcand q hqm hc
      have hpend : (cfgs.enum.foldl (combo_match_step nkeys layer queue t)
          ({} : combo_match_acc)).pending = true :=
        hpend_iff.mpr ⟨q, hqm, hc⟩
      rw [process_combo_logic_decision, hfold, hbi]
      dsimp only
      rw [hpend, if_pos rfl, hhead]
      dsimp only
      rw [if_neg (by omega)]
    -- if no candidate exists, the decision is to execute the selected combo
    have hexec : ¬ (∃ q ∈ cfgs.enum, combo_cand_at nkeys layer queue t q) →
        process_combo_logic_decision nkeys layer cfgs queue t =
          combo_decision.execute b := by
      intro hno
      have hpend : (cfgs.enum.foldl (combo_match_step nkeys layer queue t)
          ({} : combo_match_acc)).pending = false := by
        cases hp : (cfgs.enum.foldl (combo_match_step nkeys layer queue t)
            ({} : combo_match_acc)).pending with
        | false => rfl
        | true => exact absurd (hpend_iff.mp hp) hno
      rw [process_combo_logic_decision, hfold, hbi]
      dsimp only
      rw [hpend, if_neg Bool.false_ne_true]
    refine ⟨b, akb, hmem, hfullb, ?_, ?_, ?_⟩
    · -- selection: longest, ties to lowest index
      intro p hp hfp
      rcases f_dom p hp hfp with hlt | ⟨heq, hble⟩
      · exact Or.inl (by omega)
      · exact Or.inr ⟨by omega, hble b hbi⟩
    · -- decision is defer or execute b
      by_cases hc : ∃ q ∈ cfgs.enum, combo_cand_at nkeys layer queue t q
      · exact Or.inl (hdefer hc)
      · exact Or.inr (hexec hc)
    · -- defer exactly while a candidate exists
      constructor
      · intro hdef
        by_cases hc : ∃ q ∈ cfgs.enum, combo_cand_at nkeys layer queue t q
        · obtain ⟨q, hqm, hcq⟩ := hc
          obtain ⟨hlonger, h0, hhead, helapsed⟩ := hcand_facts q hcq
          refine ⟨q, hqm, hcq, by omega, h0, hhead, ?_⟩
          have hmem0 : h0 ∈ queue := by
            cases hqq : queue with
            | nil => rw [hqq] at hhead; cases hhead
            | cons a rest =>
              rw [hqq] at hhead
              have hh : a = h0 := by simpa using hhead
              rw [← hh]
              exact List.mem_cons_self _ _
          rw [timer_elapsed_eq_sub t h0.time (hbound h0 hmem0) (by omega)
            (by have := hbound h0 hmem0; omega)] at helapsed
          exact helapsed
        · rw [hexec hc] at hdef
          cases hdef
      · rintro ⟨q, hqm, hcq, -⟩
        exact hdefer ⟨q, hqm, hcq⟩

/-- Combo `[3,4] -> 0x05` of spec §8 scenario 4. -/
def c5_comboA : advanced_key_t :=
  { type := AK_TYPE_COMBO, layer := 0,
    combo := { keys := [3, 4, 255, 255], output_keycode := 5, term := 50 } }

/-- A longer combo `[3,4,6] -> 0x07` sharing a prefix with `c5_comboA`. -/
def c5_comboB : advanced_key_t :=
  { type := AK_TYPE_COMBO, layer := 0,
    combo := { keys := [3, 4, 6, 255], output_keycode := 7, term := 50 } }

/-- Queued presses of keys 3 (t=0) and 4 (t=40). -/
def c5_queue : List combo_event_t :=
  [⟨3, true, 0, false⟩, ⟨4, true, 40, false⟩]

/-- Witness for C5: with `c5_comboA` fully matched and `c5_comboB` a
candidate, the decision at t=40 defers. -/
theorem combo_selection_and_deferral_witness :
    ∃ b akb, (b, akb) ∈ ([c5_comboA, c5_comboB] : List advanced_key_t).enum ∧
      combo_full_at 64 0 c5_queue 40 (b, akb) ∧
      (∀ p ∈ ([c5_comboA, c5_comboB] : List advanced_key_t).enum,
        combo_full_at 64 0 c5_queue 40 p →
        combo_len 64 p.2 < combo_len 64 akb ∨
        (combo_len 64 p.2 = combo_len 64 akb ∧ b ≤ p.1)) ∧
      (process_combo_logic_decision 64 0 [c5_comboA, c5_comboB] c5_queue 40 =
          combo_decision.defer ∨
        process_combo_logic_decision 64 0 [c5_comboA, c5_comboB] c5_queue 40 =
          combo_decision.execute b) ∧
      (process_combo_logic_decision 64 0 [c5_comboA, c5_comboB] c5_queue 40 =
          combo_decision.defer ↔
        ∃ q ∈ ([c5_comboA, c5_comboB] : List advanced_key_t).enum,
          combo_cand_at 64 0 c5_queue 40 q ∧
          combo_len 64 akb < combo_keys_required 64 q.2 ∧
          ∃ h0, c5_queue.head? = some h0 ∧
            40 - h0.time ≤ combo_defaulted_term q.2) :=
  combo_selection_and_deferral 64 0 40 [c5_comboA, c5_comboB] c5_queue
    (by decide) (by decide) (by decide) (by decide) (by decide)
    ⟨(0, c5_comboA), by decide, rfl, rfl, by decide⟩

end LibHmk
